import Mathlib

/-!
# GasGuard: verification of the structural-recovery and rule-evaluation pipeline

Shallow embedding of the GasGuard static analyzer (a Rust project) in Lean 4.

Rust strings are modelled as `List Char`; where the source mixes byte indices
and char indices (the balanced-delimiter extractors) the embedding tracks
UTF-8 byte positions explicitly so that the byte/char confusion of the source
is reproduced faithfully, and a Rust panic is modelled as a distinguished
error value.  Rust `Vec` is `List`, `Option` is `Option`, `Result` is
`Except`.  The `HashMap` holding the Soroban rule engine's rules is modelled
as an association list together with an explicit, unspecified iteration
order, since Rust's `HashMap` iteration order is unspecified.
-/

/-- A Rust string, modelled as its list of characters. -/
abbrev Str := List Char

namespace RustStr

/-- Rust `str::contains(&str)`: substring test — `needle` occurs
contiguously somewhere in `hay` (the empty needle always matches). -/
def containsStr : Str → Str → Bool
  | hay, needle =>
    if needle.isPrefixOf hay then true
    else
      match hay with
      | [] => false
      | _ :: rest => containsStr rest needle

/-- Rust `str::contains(char)`: membership of a character. -/
def containsChar (hay : Str) (c : Char) : Bool :=
  hay.contains c

/-- Rust `str::starts_with(&str)`. -/
def startsWithStr (s p : Str) : Bool :=
  p.isPrefixOf s

/-- Rust `str::ends_with(&str)`. -/
def endsWithStr (s p : Str) : Bool :=
  p.isSuffixOf s

/-- Rust `str::trim_start` (whitespace as judged by `Char.isWhitespace`). -/
def trimLeft (s : Str) : Str :=
  s.dropWhile Char.isWhitespace

/-- Rust `str::trim`: drop leading and trailing whitespace. -/
def trim (s : Str) : Str :=
  ((s.dropWhile Char.isWhitespace).reverse.dropWhile Char.isWhitespace).reverse

/-- Structurally recursive worker for `matchesCount`; `fuel` bounds the
remaining scan length (any `fuel ≥ hay.length` yields the same value, and
the zero-fuel arm is unreachable for the wrapper's choice of fuel). -/
def matchesCountGo : Nat → Str → Str → Nat
  | _, [], needle => if needle.isEmpty then 1 else 0
  | 0, _ :: _, _ => 0
  | fuel + 1, c :: rest, needle =>
      if needle.isEmpty then 1 + matchesCountGo fuel rest needle
      else if needle.isPrefixOf (c :: rest) then
        1 + matchesCountGo fuel (rest.drop (needle.length - 1)) needle
      else matchesCountGo fuel rest needle

/-- Rust `str::matches(&str).count()`: number of non-overlapping, leftmost
occurrences of `needle` in `hay`.  For the empty needle Rust yields
`len + 1` matches, which this definition reproduces. -/
def matchesCount (hay needle : Str) : Nat :=
  matchesCountGo hay.length hay needle

/-- Rust `str::split(char)`: splits at every occurrence, keeping empty
segments; yields one more segment than there are separators. -/
def splitOnChar (d : Char) : Str → List Str
  | [] => [[]]
  | c :: rest =>
      if c = d then [] :: splitOnChar d rest
      else
        match splitOnChar d rest with
        | s :: ss => (c :: s) :: ss
        | [] => [[c]]

/-- `Vec::join(sep)` on a list of strings. -/
def joinSep (sep : Str) : List Str → Str
  | [] => []
  | [s] => s
  | s :: rest => s ++ sep ++ joinSep sep rest

end RustStr

/-! ## UTF-8 byte-position primitives

`SorobanParser::extract_between_braces` / `extract_between_parentheses`
obtain a **byte** index from `str::find`, then step through the string with
`chars().nth(end)` — a **char** index — and finally slice with byte indices.
On non-ASCII input the two index spaces disagree and the Rust code panics
(out-of-range `unwrap`, or slicing at a non-boundary byte).  The embedding
models a panic as `Except.error RustPanic.panic`. -/

/-- A Rust panic (index out of range, non-boundary slice, explicit unwrap). -/
inductive RustPanic where
  | panic
deriving DecidableEq, Repr

/-- Total UTF-8 byte length of a string (`str::len`). -/
def utf8Len (s : Str) : Nat :=
  (s.map Char.utf8Size).sum

/-- Rust `str::find(char)`: byte index of the first occurrence. -/
def byteFindChar (c : Char) : Str → Option Nat
  | [] => none
  | x :: rest =>
      if x = c then some 0
      else (byteFindChar c rest).map (· + x.utf8Size)

/-- Drop the first `a` bytes of a string; panics (like Rust slicing) when
`a` is not on a character boundary or exceeds the length. -/
def dropBytes : Str → Nat → Except RustPanic Str
  | s, 0 => .ok s
  | [], _ + 1 => .error .panic
  | c :: rest, a + 1 =>
      if c.utf8Size ≤ a + 1 then dropBytes rest (a + 1 - c.utf8Size)
      else .error .panic

/-- Take the first `b` bytes of a string; panics when `b` is not on a
character boundary or exceeds the length. -/
def takeBytes : Str → Nat → Except RustPanic Str
  | _, 0 => .ok []
  | [], _ + 1 => .error .panic
  | c :: rest, b + 1 =>
      if c.utf8Size ≤ b + 1 then
        (takeBytes rest (b + 1 - c.utf8Size)).map (c :: ·)
      else .error .panic

/-- Rust `&text[a..b]`: byte-range slice, panicking exactly when Rust does
(range inverted, out of bounds, or not on character boundaries). -/
def sliceBytes (s : Str) (a b : Nat) : Except RustPanic Str :=
  if a ≤ b then
    match takeBytes s b with
    | .error e => .error e
    | .ok t => dropBytes t a
  else .error .panic

/-! ## `SorobanParser::extract_between_*` (parser.rs lines 393-439)

The loop of the source scans with a mixed byte/char index: the condition is
`end < text.len()` (bytes), the lookup is `chars().nth(end).unwrap()`
(chars, panicking unwrap), and the final `text[start+1..end]` slices at byte
positions.  The embedding keeps that exact shape. -/

/-- Scanning loop of `extract_between_parentheses` / `extract_between_braces`:
from index `endIdx` with open-delimiter depth `count`, returns the final
index and depth, or a panic when `chars().nth` runs past the end.  The
`fuel` argument only makes the recursion structural: any
`fuel ≥ utf8Len text - endIdx` yields the loop's value, and the zero-fuel
arm is unreachable for the wrapper's choice of fuel. -/
def extractBetweenGo (openC closeC : Char) (text : Str) :
    Nat → Nat → Nat → Except RustPanic (Nat × Nat)
  | 0, endIdx, count => .ok (endIdx, count)
  | fuel + 1, endIdx, count =>
      if endIdx < utf8Len text ∧ 0 < count then
        match text.get? endIdx with
        | none => .error .panic
        | some ch =>
            let count' := if ch = openC then count + 1
              else if ch = closeC then count - 1 else count
            if 0 < count' then
              extractBetweenGo openC closeC text fuel (endIdx + 1) count'
            else .ok (endIdx, count')
      else .ok (endIdx, count)

/-- Common shape of `extract_between_parentheses` and
`extract_between_braces`: find the first open delimiter (byte index), scan
for the matching close, and slice the interior; `.ok none` is "structure not
found", `.error` is a Rust panic. -/
def extractBetween (openC closeC : Char) (text : Str) :
    Except RustPanic (Option Str) :=
  match byteFindChar openC text with
  | none => .ok none
  | some start =>
      match extractBetweenGo openC closeC text (utf8Len text) (start + 1) 1 with
      | .error e => .error e
      | .ok (endIdx, count) =>
          if count = 0 then (sliceBytes text (start + 1) endIdx).map some
          else .ok none

namespace SorobanParser

/-- `SorobanParser::extract_between_parentheses` (parser.rs 394-415). -/
def extract_between_parentheses (text : Str) : Except RustPanic (Option Str) :=
  extractBetween '(' ')' text

/-- `SorobanParser::extract_between_braces` (parser.rs 418-439). -/
def extract_between_braces (text : Str) : Except RustPanic (Option Str) :=
  extractBetween '{' '}' text

/-- Loop of `split_preserving_parentheses` (parser.rs 442-473): three `i32`
depth counters, updated before the delimiter test; at a split the current
segment is pushed **trimmed but even when empty**; the final segment is
pushed only when its trimmed form is non-empty. -/
def sppGo (delimiter : Char) :
    Str → Int → Int → Int → Str → List Str
  | [], _, _, _, current =>
      if (RustStr.trim current).isEmpty then [] else [RustStr.trim current]
  | ch :: rest, paren, bracket, brace, current =>
      let paren' := if ch = '(' then paren + 1
        else if ch = ')' then paren - 1 else paren
      let bracket' := if ch = '[' then bracket + 1
        else if ch = ']' then bracket - 1 else bracket
      let brace' := if ch = '{' then brace + 1
        else if ch = '}' then brace - 1 else brace
      if ch = delimiter ∧ paren' = 0 ∧ bracket' = 0 ∧ brace' = 0 then
        RustStr.trim current :: sppGo delimiter rest paren' bracket' brace' []
      else
        sppGo delimiter rest paren' bracket' brace' (current ++ [ch])

/-- `SorobanParser::split_preserving_parentheses` (parser.rs 442-473). -/
def split_preserving_parentheses (text : Str) (delimiter : Char) : List Str :=
  sppGo delimiter text 0 0 0 []

end SorobanParser

/-! ## Soroban contract IR

The `soroban` module's data-model file is absent from `src/`, but every
field of every type is fully determined by the construction sites in
`packages/rules/src/soroban/parser.rs` and the uses in `analyzer.rs` and
`soroban/rule_engine.rs`; the structures below are transcribed from those
sites.  `ViolationSeverity` is the single totally-ordered scale mandated by
design note §9: the source evolved two vocabularies
(`Error/Warning/Info` in `rule_engine.rs` and additionally `Medium/High`
used by the soroban modules), merged here into one enumeration. -/

inductive FieldVisibility where
  | Public
  | Private
deriving DecidableEq, Repr

inductive FunctionVisibility where
  | Public
deriving DecidableEq, Repr

inductive ViolationSeverity where
  | Error
  | Warning
  | Info
  | Medium
  | High
deriving DecidableEq, Repr

structure SorobanField where
  name : Str
  type_name : Str
  visibility : FieldVisibility
  line_number : Nat
deriving DecidableEq, Repr

structure SorobanStruct where
  name : Str
  fields : List SorobanField
  line_number : Nat
  raw_definition : Str
deriving DecidableEq, Repr

structure SorobanParam where
  name : Str
  type_name : Str
deriving DecidableEq, Repr

structure SorobanFunction where
  name : Str
  params : List SorobanParam
  return_type : Option Str
  visibility : FunctionVisibility
  is_constructor : Bool
  line_number : Nat
  raw_definition : Str
deriving DecidableEq, Repr

structure SorobanImpl where
  target : Str
  functions : List SorobanFunction
  line_number : Nat
  raw_definition : Str
deriving DecidableEq, Repr

structure SorobanContract where
  name : Str
  contract_types : List SorobanStruct
  implementations : List SorobanImpl
  source : Str
  file_path : Str
deriving DecidableEq, Repr

/-- The violation record as constructed by the soroban analyzer and rules
(`rule_name`, `description`, `suggestion`, `line_number`, `variable_name`,
`severity`). -/
structure RuleViolation where
  rule_name : Str
  description : Str
  suggestion : Str
  line_number : Nat
  variable_name : Str
  severity : ViolationSeverity
deriving DecidableEq, Repr

namespace SorobanAnalyzer

open RustStr

/-- The violation record pushed by
`SorobanAnalyzer::check_unused_state_variables` (analyzer.rs 134-141). -/
def unusedStateViolation (field : SorobanField) : RuleViolation :=
  { rule_name := "unused-state-variable".data
    description := "State variable \x27".data ++ field.name ++
      "\x27 appears to be unused".data
    suggestion := "Remove unused state variable \x27".data ++ field.name ++
      "\x27 to save ledger storage".data
    line_number := field.line_number
    variable_name := field.name
    severity := .Warning }

/-- `SorobanAnalyzer::check_unused_state_variables` (analyzer.rs 124-146):
one `unused-state-variable` Warning per field whose name has at most one
textual occurrence in the full source. -/
def check_unused_state_variables (contract_type : SorobanStruct) (source : Str) :
    List RuleViolation :=
  contract_type.fields.filterMap fun field =>
    if matchesCount source field.name ≤ 1 then
      some (unusedStateViolation field)
    else none

/-- `SorobanAnalyzer::check_inefficient_field_types` (analyzer.rs 149-179). -/
def check_inefficient_field_types (contract_type : SorobanStruct) :
    List RuleViolation :=
  contract_type.fields.flatMap fun field =>
    (if field.type_name = "u128".data ∨ field.type_name = "i128".data then
      [{ rule_name := "inefficient-integer-type".data
         description := "Field \x27".data ++ field.name ++ "\x27 uses ".data ++
           field.type_name ++ " which may be unnecessarily large".data
         suggestion :=
           "Consider using a smaller integer type like u64 or u32 if the range permits: ".data
             ++ field.name
         line_number := field.line_number
         variable_name := field.name
         severity := .Info }]
    else []) ++
    (if field.type_name = "String".data then
      [{ rule_name := "string-instead-of-symbol".data
         description := "Field \x27".data ++ field.name ++ "\x27 uses String type".data
         suggestion := "Consider using Symbol for fixed string values to save storage costs".data
         line_number := field.line_number
         variable_name := field.name
         severity := .Info }]
    else [])

/-- `SorobanAnalyzer::check_missing_pub_fields` (analyzer.rs 182-199). -/
def check_missing_pub_fields (contract_type : SorobanStruct) :
    List RuleViolation :=
  contract_type.fields.filterMap fun field =>
    if field.visibility = FieldVisibility.Private then
      some
        { rule_name := "private-contract-field".data
          description := "Field \x27".data ++ field.name ++
            "\x27 is private but contract fields should typically be public".data
          suggestion := "Change \x27".data ++ field.name ++ "\x27 to \x27pub ".data ++
            field.name ++ "\x27 to make it accessible".data
          line_number := field.line_number
          variable_name := field.name
          severity := .Warning }
    else none

/-- `SorobanAnalyzer::analyze_contract_type` (analyzer.rs 34-47). -/
def analyze_contract_type (contract_type : SorobanStruct) (source : Str) :
    List RuleViolation :=
  check_unused_state_variables contract_type source ++
    check_inefficient_field_types contract_type ++
    check_missing_pub_fields contract_type

/-- `SorobanAnalyzer::check_expensive_operations` (analyzer.rs 202-243). -/
def check_expensive_operations (function : SorobanFunction) (_source : Str) :
    List RuleViolation :=
  (if containsStr function.raw_definition ".to_string()".data ∨
      containsStr function.raw_definition "String::from(".data then
    [{ rule_name := "expensive-string-operation".data
       description := "String operations can be expensive in terms of gas/storage".data
       suggestion := "Consider using Symbol or Bytes for fixed data, or minimize string operations".data
       line_number := function.line_number
       variable_name := function.name
       severity := .Medium }]
  else []) ++
  (if containsStr function.raw_definition "Vec::new()".data ∧
      ¬ containsStr function.raw_definition "with_capacity".data then
    [{ rule_name := "vec-without-capacity".data
       description := "Vec::new() without capacity can cause multiple reallocations".data
       suggestion := "Use Vec::with_capacity() to pre-allocate memory when size is known".data
       line_number := function.line_number
       variable_name := function.name
       severity := .Medium }]
  else []) ++
  (if containsStr function.raw_definition ".clone()".data then
    [{ rule_name := "unnecessary-clone".data
       description := "Clone operations increase resource usage and gas costs".data
       suggestion := "Avoid unnecessary cloning, use references where possible".data
       line_number := function.line_number
       variable_name := function.name
       severity := .Medium }]
  else [])

/-- `SorobanAnalyzer::check_parameter_validation` (analyzer.rs 246-267):
one violation per `Address`-typed parameter of a set/transfer function. -/
def check_parameter_validation (function : SorobanFunction) :
    List RuleViolation :=
  function.params.filterMap fun param =>
    if containsStr param.type_name "Address".data ∧
        (containsStr function.name "set".data ∨
         containsStr function.name "transfer".data) then
      some
        { rule_name := "missing-address-validation".data
          description := "Function \x27".data ++ function.name ++
            "\x27 takes Address parameter but may lack validation".data
          suggestion := "Validate Address parameters to prevent invalid addresses".data
          line_number := function.line_number
          variable_name := function.name
          severity := .Medium }
    else none

/-- The violation record pushed by `check_return_values`
(analyzer.rs 279-286). -/
def returnValuesViolation (function : SorobanFunction) : RuleViolation :=
  { rule_name := "missing-error-handling".data
    description := "Function \x27".data ++ function.name ++
      "\x27 should return Result for error handling".data
    suggestion := "Return Result<(), Error> to properly handle operation failures".data
    line_number := function.line_number
    variable_name := function.name
    severity := .Medium }

/-- `SorobanAnalyzer::check_return_values` (analyzer.rs 270-291): fires for
functions whose name contains `transfer`, `mint` or `burn` (the analyzer
does **not** test for `set` here) when the return type is absent or does
not contain `Result`. -/
def check_return_values (function : SorobanFunction) : List RuleViolation :=
  if (containsStr function.name "transfer".data ||
      containsStr function.name "mint".data ||
      containsStr function.name "burn".data) &&
     (match function.return_type with
      | none => true
      | some rt => ! containsStr rt "Result".data) then
    [returnValuesViolation function]
  else []

/-- `SorobanAnalyzer::analyze_function` (analyzer.rs 67-80). -/
def analyze_function (function : SorobanFunction) (source : Str) :
    List RuleViolation :=
  check_expensive_operations function source ++
    check_parameter_validation function ++
    check_return_values function

/-- `SorobanAnalyzer::check_unbounded_loops` (analyzer.rs 294-316). -/
def check_unbounded_loops (implementation : SorobanImpl) (_source : Str) :
    List RuleViolation :=
  implementation.functions.filterMap fun function =>
    if (containsStr function.raw_definition "for ".data ∨
        containsStr function.raw_definition "while ".data) ∧
       ¬ containsStr function.raw_definition ".len()".data ∧
       ¬ containsStr function.raw_definition "range(".data then
      some
        { rule_name := "unbounded-loop".data
          description := "Function \x27".data ++ function.name ++
            "\x27 contains potentially unbounded loop".data
          suggestion := "Ensure loops have clear termination conditions to prevent CPU limit exhaustion".data
          line_number := function.line_number
          variable_name := function.name
          severity := .High }
    else none

/-- Read-marker count used by `check_storage_patterns`: occurrences of
`.get(` plus occurrences of `.load(` in a function's raw body. -/
def storageReadCount (function : SorobanFunction) : Nat :=
  matchesCount function.raw_definition ".get(".data +
    matchesCount function.raw_definition ".load(".data

/-- The violation record pushed by `check_storage_patterns`
(analyzer.rs 339-346). -/
def storagePatternViolation (function : SorobanFunction) : RuleViolation :=
  { rule_name := "inefficient-storage-access".data
    description := "Function \x27".data ++ function.name ++
      "\x27 performs ".data ++ (toString (storageReadCount function)).data ++
      " storage reads - consider caching".data
    suggestion := "Cache frequently accessed storage values in local variables".data
    line_number := function.line_number
    variable_name := function.name
    severity := .Medium }

/-- `SorobanAnalyzer::check_storage_patterns` (analyzer.rs 319-350): the
analyzer flags a function when its `.get(`/`.load(` count is **greater
than 2**. -/
def check_storage_patterns (implementation : SorobanImpl) (_source : Str) :
    List RuleViolation :=
  implementation.functions.filterMap fun function =>
    if storageReadCount function > 2 then
      some (storagePatternViolation function)
    else none

/-- `SorobanAnalyzer::analyze_implementation` (analyzer.rs 50-64). -/
def analyze_implementation (implementation : SorobanImpl) (source : Str) :
    List RuleViolation :=
  implementation.functions.flatMap (fun f => analyze_function f source) ++
    check_unbounded_loops implementation source ++
    check_storage_patterns implementation source

/-- `SorobanAnalyzer::analyze_contract_structure` (analyzer.rs 83-121). -/
def analyze_contract_structure (contract : SorobanContract) :
    List RuleViolation :=
  (if ¬ contract.implementations.any (fun imp =>
      imp.functions.any (fun f => f.is_constructor)) then
    [{ rule_name := "missing-constructor".data
       description := "Contract should have a constructor function for initialization".data
       suggestion := "Add a \x27new\x27 function that initializes the contract state".data
       line_number := 1
       variable_name := contract.name
       severity := .Warning }]
  else []) ++
  (if ¬ contract.contract_types.any (fun ct =>
      ct.fields.any (fun f =>
        containsStr f.name "admin".data ∨ containsStr f.name "owner".data ∨
          containsStr f.type_name "Address".data)) then
    [{ rule_name := "missing-admin-pattern".data
       description := "Consider adding an admin/owner field for access control".data
       suggestion := "Add an \x27admin: Address\x27 field to your contract state".data
       line_number := 1
       variable_name := contract.name
       severity := .Info }]
  else [])

/-- `SorobanAnalyzer::analyze_contract` (analyzer.rs 14-31). -/
def analyze_contract (contract : SorobanContract) : List RuleViolation :=
  contract.contract_types.flatMap
      (fun ct => analyze_contract_type ct contract.source) ++
    contract.implementations.flatMap
      (fun imp => analyze_implementation imp contract.source) ++
    analyze_contract_structure contract

end SorobanAnalyzer

/-! ## Soroban rule engine (soroban/rule_engine.rs)

`SorobanRuleEngine` stores its rules in a
`HashMap<String, Box<dyn SorobanRule>>` and iterates `self.rules.values()`.
A Rust `HashMap`'s iteration order is unspecified (not registration order),
so the engine is modelled by the list of `(rule, enabled)` pairs **in the
iteration order actually used**, quantified over where a theorem needs it;
`sorobanDefaultRules` records the registration order of
`add_default_rules` (rule_engine.rs 40-49). -/

inductive SorobanRuleId where
  | unusedStateVariables
  | inefficientStorageAccess
  | unboundedLoop
  | expensiveStringOperations
  | missingConstructor
  | adminPattern
  | inefficientIntegerTypes
  | missingErrorHandling
deriving DecidableEq, Repr

namespace SorobanRules

open RustStr

/-- `UnusedStateVariablesRule::apply` (soroban/rule_engine.rs 143-164);
rule id `soroban-unused-state-variables`, severity Warning. -/
def unusedStateVariablesApply (contract : SorobanContract) : List RuleViolation :=
  contract.contract_types.flatMap fun contract_type =>
    contract_type.fields.filterMap fun field =>
      if matchesCount contract.source field.name ≤ 1 then
        some
          { rule_name := "soroban-unused-state-variables".data
            description := "State variable \x27".data ++ field.name ++
              "\x27 appears to be unused".data
            suggestion := "Remove unused state variable \x27".data ++ field.name ++
              "\x27 to save ledger storage costs".data
            line_number := field.line_number
            variable_name := field.name
            severity := .Warning }
      else none

/-- Storage-operation count used by `InefficientStorageAccessRule::apply`:
occurrences of `.get(`, `.set(`, `.load(` and `.store(` in the raw body. -/
def storageOpsCount (function : SorobanFunction) : Nat :=
  matchesCount function.raw_definition ".get(".data +
    matchesCount function.raw_definition ".set(".data +
    matchesCount function.raw_definition ".load(".data +
    matchesCount function.raw_definition ".store(".data

/-- `InefficientStorageAccessRule::apply` (soroban/rule_engine.rs 203-233);
rule id `soroban-inefficient-storage`, severity Medium, threshold
`total_ops > 3`. -/
def storageOpsViolation (function : SorobanFunction) : RuleViolation :=
  { rule_name := "soroban-inefficient-storage".data
    description := "Function \x27".data ++ function.name ++
      "\x27 performs ".data ++ (toString (storageOpsCount function)).data ++
      " storage operations - consider caching".data
    suggestion := "Cache frequently accessed storage values in local variables to reduce ledger interactions".data
    line_number := function.line_number
    variable_name := function.name
    severity := .Medium }

/-- Body of `InefficientStorageAccessRule::apply`. -/
def inefficientStorageAccessApply (contract : SorobanContract) :
    List RuleViolation :=
  contract.implementations.flatMap fun implementation =>
    implementation.functions.filterMap fun function =>
      if storageOpsCount function > 3 then
        some (storageOpsViolation function)
      else none

/-- `UnboundedLoopRule::apply` (soroban/rule_engine.rs 272-300). -/
def unboundedLoopApply (contract : SorobanContract) : List RuleViolation :=
  contract.implementations.flatMap fun implementation =>
    implementation.functions.filterMap fun function =>
      if (containsStr function.raw_definition "loop \x7b".data ||
          containsStr function.raw_definition "while ".data ||
          containsStr function.raw_definition "for ".data) &&
         ! (containsStr function.raw_definition ".len()".data ||
            containsStr function.raw_definition "range(".data ||
            containsStr function.raw_definition "..".data) then
        some
          { rule_name := "soroban-unbounded-loop".data
            description := "Function \x27".data ++ function.name ++
              "\x27 contains potentially unbounded loop".data
            suggestion := "Ensure loops have clear termination conditions to prevent CPU limit exhaustion".data
            line_number := function.line_number
            variable_name := function.name
            severity := .High }
      else none

/-- `ExpensiveStringOperationsRule::apply` (soroban/rule_engine.rs 339-363). -/
def expensiveStringOperationsApply (contract : SorobanContract) :
    List RuleViolation :=
  contract.implementations.flatMap fun implementation =>
    implementation.functions.filterMap fun function =>
      if containsStr function.raw_definition ".to_string()".data ||
         containsStr function.raw_definition "String::from(".data ||
         containsStr function.raw_definition "format!(".data then
        some
          { rule_name := "soroban-expensive-strings".data
            description := "Function \x27".data ++ function.name ++
              "\x27 uses expensive string operations".data
            suggestion := "Consider using Symbol or Bytes for fixed data, or minimize string operations to reduce gas costs".data
            line_number := function.line_number
            variable_name := function.name
            severity := .Medium }
      else none

/-- `MissingConstructorRule::apply` (soroban/rule_engine.rs 402-419). -/
def missingConstructorApply (contract : SorobanContract) : List RuleViolation :=
  if ¬ contract.implementations.any (fun imp =>
      imp.functions.any (fun f => f.is_constructor)) then
    [{ rule_name := "soroban-missing-constructor".data
       description := "Contract lacks a constructor function for initialization".data
       suggestion := "Add a \x27new\x27 function that initializes the contract state properly".data
       line_number := 1
       variable_name := contract.name
       severity := .Warning }]
  else []

/-- `AdminPatternRule::apply` (soroban/rule_engine.rs 458-479). -/
def adminPatternApply (contract : SorobanContract) : List RuleViolation :=
  if ¬ contract.contract_types.any (fun ct =>
      ct.fields.any (fun f =>
        containsStr f.name "admin".data ∨ containsStr f.name "owner".data ∨
          containsStr f.type_name "Address".data)) then
    [{ rule_name := "soroban-admin-pattern".data
       description := "Consider adding an admin/owner field for access control".data
       suggestion := "Add an \x27admin: Address\x27 field to your contract state for administrative functions".data
       line_number := 1
       variable_name := contract.name
       severity := .Info }]
  else []

/-- `InefficientIntegerTypesRule::apply` (soroban/rule_engine.rs 518-537). -/
def inefficientIntegerTypesApply (contract : SorobanContract) :
    List RuleViolation :=
  contract.contract_types.flatMap fun contract_type =>
    contract_type.fields.filterMap fun field =>
      if field.type_name = "u128".data ∨ field.type_name = "i128".data then
        some
          { rule_name := "soroban-inefficient-integers".data
            description := "Field \x27".data ++ field.name ++ "\x27 uses ".data ++
              field.type_name ++ " which may be unnecessarily large".data
            suggestion := "Consider using a smaller integer type like u64 or u32 if the range permits".data
            line_number := field.line_number
            variable_name := field.name
            severity := .Info }
      else none

/-- `MissingErrorHandlingRule::apply` (soroban/rule_engine.rs 576-603):
unlike the analyzer's `check_return_values`, this rule also triggers on
`set`. -/
def errorHandlingRuleViolation (function : SorobanFunction) : RuleViolation :=
  { rule_name := "soroban-missing-error-handling".data
    description := "Function \x27".data ++ function.name ++
      "\x27 should return Result for proper error handling".data
    suggestion := "Return Result<(), Error> to properly handle operation failures and provide better error reporting".data
    line_number := function.line_number
    variable_name := function.name
    severity := .Medium }

/-- Body of `MissingErrorHandlingRule::apply`. -/
def missingErrorHandlingApply (contract : SorobanContract) :
    List RuleViolation :=
  contract.implementations.flatMap fun implementation =>
    implementation.functions.filterMap fun function =>
      if (containsStr function.name "transfer".data ||
          containsStr function.name "mint".data ||
          containsStr function.name "burn".data ||
          containsStr function.name "set".data) &&
         (match function.return_type with
          | none => true
          | some rt => ! containsStr rt "Result".data) then
        some (errorHandlingRuleViolation function)
      else none

end SorobanRules

/-- `SorobanRule::apply` dispatch for the eight default rules. -/
def sorobanRuleApply : SorobanRuleId → SorobanContract → List RuleViolation
  | .unusedStateVariables => SorobanRules.unusedStateVariablesApply
  | .inefficientStorageAccess => SorobanRules.inefficientStorageAccessApply
  | .unboundedLoop => SorobanRules.unboundedLoopApply
  | .expensiveStringOperations => SorobanRules.expensiveStringOperationsApply
  | .missingConstructor => SorobanRules.missingConstructorApply
  | .adminPattern => SorobanRules.adminPatternApply
  | .inefficientIntegerTypes => SorobanRules.inefficientIntegerTypesApply
  | .missingErrorHandling => SorobanRules.missingErrorHandlingApply

/-- `SorobanRule::id` of each default rule. -/
def sorobanRuleIdStr : SorobanRuleId → Str
  | .unusedStateVariables => "soroban-unused-state-variables".data
  | .inefficientStorageAccess => "soroban-inefficient-storage".data
  | .unboundedLoop => "soroban-unbounded-loop".data
  | .expensiveStringOperations => "soroban-expensive-strings".data
  | .missingConstructor => "soroban-missing-constructor".data
  | .adminPattern => "soroban-admin-pattern".data
  | .inefficientIntegerTypes => "soroban-inefficient-integers".data
  | .missingErrorHandling => "soroban-missing-error-handling".data

/-- Registration order and default enabled flags of `add_default_rules`
(soroban/rule_engine.rs 40-49). -/
def sorobanDefaultRules : List (SorobanRuleId × Bool) :=
  [(.unusedStateVariables, true), (.inefficientStorageAccess, true),
   (.unboundedLoop, true), (.expensiveStringOperations, true),
   (.missingConstructor, true), (.adminPattern, true),
   (.inefficientIntegerTypes, true), (.missingErrorHandling, true)]

namespace SorobanRuleEngine

/-- Rule-application phase of `SorobanRuleEngine::analyze`
(soroban/rule_engine.rs 52-68) on an already-parsed contract: the
analyzer's violations followed by `rule.apply` for every enabled rule, in
the engine's `HashMap` iteration order `rulesIter`. -/
def applyRules (rulesIter : List (SorobanRuleId × Bool))
    (contract : SorobanContract) : List RuleViolation :=
  SorobanAnalyzer.analyze_contract contract ++
    rulesIter.flatMap fun r =>
      if r.2 then sorobanRuleApply r.1 contract else []

end SorobanRuleEngine

/-! ## `SorobanParser` (packages/rules/src/soroban/parser.rs)

Errors: `SorobanParseError` has the two variants constructed in the source;
`RunError` additionally distinguishes a Rust panic (the source can panic
inside `extract_between_*` on non-ASCII input, and a panic propagates
through every caller). -/

inductive SorobanParseError where
  | MissingMacro (msg : Str)
  | ParseError (msg : Str)
deriving DecidableEq, Repr

inductive RunError where
  | panic
  | parseErr (e : SorobanParseError)
deriving DecidableEq, Repr

/-- Return type of the parser's fallible operations
(`SorobanResult<T> = Result<T, SorobanParseError>`, plus the panic case). -/
abbrev SorobanResult (α : Type) := Except RunError α

namespace RustStr

/-- Strip one trailing carriage return (used by `str::lines` on segments
that were terminated by a newline). -/
def stripTrailingCR (s : Str) : Str :=
  if s.getLast? = some '\r' then s.dropLast else s

/-- Rust `str::lines()`: split at `\n`, strip a `\r` preceding each `\n`,
no trailing empty line, and a final unterminated line keeps its `\r`. -/
def rustLines (s : Str) : List Str :=
  if s.isEmpty then []
  else
    let parts := splitOnChar '\n' s
    match parts.getLast? with
    | some [] => parts.dropLast.map stripTrailingCR
    | _ => parts.dropLast.map stripTrailingCR ++ [parts.getLast?.getD []]

end RustStr

namespace SorobanParser

open RustStr

/-- Word character of the regex class `\w` (ASCII letters, digits,
underscore; the concrete inputs in this development are ASCII). -/
def isWordChar (c : Char) : Bool :=
  c.isAlphanum || c = '_'

/-- Attempt of the regex `KW\s+(\w+)` anchored at the head of `s`:
the literal keyword, at least one whitespace, then a non-empty word-char
run (the capture). -/
def tryKwAt (kw : Str) (s : Str) : Option Str :=
  if kw.isPrefixOf s then
    let r := s.drop kw.length
    if (r.takeWhile Char.isWhitespace).isEmpty then none
    else
      let w := (r.dropWhile Char.isWhitespace).takeWhile isWordChar
      if w.isEmpty then none else some w
  else none

/-- Leftmost match of `KW\s+(\w+)` in `s` (used for `struct\s+(\w+)` and
`fn\s+(\w+)`). -/
def findKwCapture (kw : Str) : Str → Option Str
  | [] => none
  | s@(_ :: rest) =>
      match tryKwAt kw s with
      | some w => some w
      | none => findKwCapture kw rest

/-- Match of `\s+for\s+` anchored at the head of `r`; returns the tail
after the (greedy) trailing whitespace. -/
def wsForTail (r : Str) : Option Str :=
  if (r.takeWhile Char.isWhitespace).isEmpty then none
  else
    let afterWs := r.dropWhile Char.isWhitespace
    if "for".data.isPrefixOf afterWs then
      let after3 := afterWs.drop 3
      if (after3.takeWhile Char.isWhitespace).isEmpty then none
      else some (after3.dropWhile Char.isWhitespace)
    else none

/-- Tails reachable through the lazy `.*?\s+for\s+` alternative of the impl
regex, shortest `.*?` first (`.` does not cross a newline). -/
def forSepCandidates : Str → List Str
  | [] => []
  | r@(c :: rest) =>
      (match wsForTail r with
       | some t => [t]
       | none => []) ++
      (if c = '\n' then [] else forSepCandidates rest)

/-- Attempt of the regex `impl\s+(?:.*?\s+for\s+)?(\w+)` anchored at the
head of `s`, modelled with the greedy `impl\s+` prefix fixed first (exact
for every input in which the capture does not require re-splitting the
leading whitespace run, which includes all syntactically valid `impl`
headers). -/
def implTargetAt (s : Str) : Option Str :=
  if "impl".data.isPrefixOf s then
    let r := s.drop 4
    if (r.takeWhile Char.isWhitespace).isEmpty then none
    else
      let r' := r.dropWhile Char.isWhitespace
      (forSepCandidates r' ++ [r']).findSome? fun t =>
        let w := t.takeWhile isWordChar
        if w.isEmpty then none else some w
  else none

/-- Leftmost match of the impl-target regex in `s`. -/
def implTargetCapture : Str → Option Str
  | [] => none
  | s@(_ :: rest) =>
      match implTargetAt s with
      | some t => some t
      | none => implTargetCapture rest

/-- Lazy capture `(.*?)` of the `#[contract(...)]` regex: starting inside
the parentheses, the shortest span (not crossing a newline) followed by
`\s*\)\s*\]`. -/
def lazyCaptureClose : Str → Str → Option Str
  | r, acc =>
      let r1 := r.dropWhile Char.isWhitespace
      match r1 with
      | ')' :: r2 =>
          (match r2.dropWhile Char.isWhitespace with
           | ']' :: _ => some acc.reverse
           | _ => continueScan r acc)
      | _ => continueScan r acc
where
  continueScan : Str → Str → Option Str
    | [], _ => none
    | c :: rest, acc => if c = '\n' then none else lazyCaptureClose rest (c :: acc)

/-- Attempt of the regex `#\s*\[\s*contract\s*\(\s*(.*?)\s*\)\s*\]`
anchored at the head of `s`. -/
def contractNameAt (s : Str) : Option Str :=
  match s with
  | '#' :: r =>
      (match r.dropWhile Char.isWhitespace with
       | '[' :: r2 =>
           let r3 := r2.dropWhile Char.isWhitespace
           if "contract".data.isPrefixOf r3 then
             match (r3.drop 8).dropWhile Char.isWhitespace with
             | '(' :: r4 => lazyCaptureClose (r4.dropWhile Char.isWhitespace) []
             | _ => none
           else none
       | _ => none)
  | _ => none

/-- Leftmost match of the `#[contract(...)]` regex over the source. -/
def contractNameScan : Str → Option Str
  | [] => none
  | s@(_ :: rest) =>
      match contractNameAt s with
      | some cap => some cap
      | none => contractNameScan rest

/-- Match of the marker `#\s*\[\s*contracttype\s*\]` anchored at the head
of `s`; returns the remainder after `]`. -/
def contracttypeMarkerAt (s : Str) : Option Str :=
  match s with
  | '#' :: r =>
      (match r.dropWhile Char.isWhitespace with
       | '[' :: r2 =>
           let r3 := r2.dropWhile Char.isWhitespace
           if "contracttype".data.isPrefixOf r3 then
             match (r3.drop 12).dropWhile Char.isWhitespace with
             | ']' :: r4 => some r4
             | _ => none
           else none
       | _ => none)
  | _ => none

/-- Leftmost match of the fallback regex
`#\s*\[\s*contracttype\s*\][\s\S]*?struct\s+(\w+)`: a `contracttype`
marker followed (lazily, across newlines) by `struct\s+(\w+)`. -/
def contracttypeStructScan : Str → Option Str
  | [] => none
  | s@(_ :: rest) =>
      match contracttypeMarkerAt s with
      | some r =>
          (match findKwCapture "struct".data r with
           | some w => some w
           | none => contracttypeStructScan rest)
      | none => contracttypeStructScan rest

/-- `SorobanParser::extract_contract_name` (parser.rs 37-57). -/
def extract_contract_name (source : Str) : SorobanResult Str :=
  match contractNameScan source with
  | some name => .ok (trim name)
  | none =>
      match contracttypeStructScan source with
      | some name => .ok name
      | none => .error (.parseErr (.MissingMacro
          "Could not determine contract name from #[contract] or #[contracttype] attributes".data))

/-- `SorobanParser::parse_field` (parser.rs 167-197): visibility by `pub `
prefix, then a split on `:` that must give exactly two parts. -/
def parse_field (field_str : Str) (line_number : Nat) :
    SorobanResult (Option SorobanField) :=
  let field_str := trim field_str
  if field_str.isEmpty then .ok none
  else
    let vr : FieldVisibility × Str :=
      if "pub ".data.isPrefixOf field_str then (.Public, field_str.drop 4)
      else (.Private, field_str)
    match splitOnChar ':' vr.2 with
    | [a, b] =>
        .ok (some { name := trim a, type_name := trim b,
                    visibility := vr.1, line_number := line_number })
    | _ => .error (.parseErr (.ParseError ("Invalid field format: ".data ++ field_str)))

/-- Field loop of `parse_struct_fields` (parser.rs 151-161): enumerated
comma-fragments, empty fragments skipped but still counted for the line
number. -/
def parse_struct_fields_go (parts : List Str) (idx base_line : Nat) :
    SorobanResult (List SorobanField) :=
  match parts with
  | [] => .ok []
  | p :: rest =>
      let p' := trim p
      if p'.isEmpty then parse_struct_fields_go rest (idx + 1) base_line
      else
        match parse_field p' (base_line + idx) with
        | .error e => .error e
        | .ok none => parse_struct_fields_go rest (idx + 1) base_line
        | .ok (some f) =>
            (parse_struct_fields_go rest (idx + 1) base_line).map (f :: ·)

/-- `SorobanParser::parse_struct_fields` (parser.rs 140-164): join the
struct lines with spaces, extract the brace interior, split on commas. -/
def parse_struct_fields (lines : List Str) (base_line : Nat) :
    SorobanResult (List SorobanField) :=
  let full_content := joinSep " ".data lines
  match extract_between_braces full_content with
  | .error _ => .error .panic
  | .ok none => .error (.parseErr (.ParseError "Could not extract struct fields".data))
  | .ok (some fields_content) =>
      parse_struct_fields_go (splitOnChar ',' fields_content) 0 base_line

/-- Brace-collection loop of `parse_single_struct` (parser.rs 108-126):
pushes each trimmed line, counts at most one `{` and one `}` per line, and
breaks when the counter reaches zero after a `}`. -/
def collectBraceLines : List Str → Int → List Str
  | [], _ => []
  | l :: rest, count =>
      let line := trim l
      let c1 := if containsChar line '{' then count + 1 else count
      if containsChar line '}' then
        (if c1 - 1 = 0 then [line] else line :: collectBraceLines rest (c1 - 1))
      else line :: collectBraceLines rest c1

/-- `SorobanParser::parse_single_struct` (parser.rs 91-137). -/
def parse_single_struct (lines : List Str) (start_line : Nat) :
    SorobanResult (Option SorobanStruct) :=
  match lines with
  | [] => .ok none
  | l0 :: rest =>
      let struct_line := trim l0
      if ! startsWithStr struct_line "struct".data then .ok none
      else
        match findKwCapture "struct".data struct_line with
        | none => .error (.parseErr (.ParseError
            ("Could not parse struct name from: ".data ++ struct_line)))
        | some name =>
            let struct_lines := struct_line :: collectBraceLines rest 0
            match parse_struct_fields struct_lines start_line with
            | .error e => .error e
            | .ok fields =>
                .ok (some { name := name, fields := fields,
                            line_number := start_line,
                            raw_definition := joinSep "\n".data struct_lines })

/-- Outer loop of `parse_contract_types` (parser.rs 60-88): scan for a
`#[contracttype]` marker, advance to the next `struct` line, parse it
(propagating its errors), and resume one line past the `struct` line.
The `fuel` argument only makes the recursion structural: the index grows
at every recursive call, so any `fuel > lines.length` yields the loop's
value and the zero-fuel arm is unreachable for the wrapper's fuel. -/
def parse_contract_types_go (lines : List Str) :
    Nat → Nat → SorobanResult (List SorobanStruct)
  | 0, _ => .ok []
  | fuel + 1, i =>
      if i < lines.length then
        if startsWithStr (trim (lines.getD i [])) "#[contracttype]".data then
          match (lines.drop (i + 1)).findIdx?
              (fun l => startsWithStr (trim l) "struct".data) with
          | none => .ok []
          | some k =>
              match parse_single_struct (lines.drop (i + 1 + k)) (i + 1) with
              | .error e => .error e
              | .ok none => parse_contract_types_go lines fuel (i + 1 + k + 1)
              | .ok (some s) =>
                  (parse_contract_types_go lines fuel (i + 1 + k + 1)).map (s :: ·)
        else parse_contract_types_go lines fuel (i + 1)
      else .ok []

/-- `SorobanParser::parse_contract_types` (parser.rs 60-88). -/
def parse_contract_types (lines : List Str) : SorobanResult (List SorobanStruct) :=
  parse_contract_types_go lines (lines.length + 1) 0

/-- `SorobanParser::extract_parameters` (parser.rs 349-374): parenthesis
interior, comma-split preserving nesting, and silent skipping of fragments
that do not split on `:` into exactly two parts. -/
def extract_parameters (func_signature : Str) :
    SorobanResult (List SorobanParam) :=
  match extract_between_parentheses func_signature with
  | .error _ => .error .panic
  | .ok none => .error (.parseErr (.ParseError "Could not extract parameters".data))
  | .ok (some params_section) =>
      .ok ((split_preserving_parentheses params_section ',').filterMap fun part =>
        let part := trim part
        if part.isEmpty then none
        else
          match splitOnChar ':' part with
          | [a, b] => some { name := trim a, type_name := trim b }
          | _ => none)

/-- Backtracking capture of `->\s*([^{\n]+)` anchored right after an
arrow: greedy whitespace first, backing off one whitespace character at a
time until the character class can take at least one character. -/
def returnTypeCapGo (r : Str) : Nat → Option Str
  | 0 =>
      let cap := r.takeWhile (fun c => ! (c = '{' ∨ c = '\n'))
      if ! cap.isEmpty then some cap else none
  | k + 1 =>
      let cap := (r.drop (k + 1)).takeWhile (fun c => ! (c = '{' ∨ c = '\n'))
      if ! cap.isEmpty then some cap else returnTypeCapGo r k

/-- Entry point of the backtracking capture: start from the full greedy
whitespace run. -/
def returnTypeCapAt (r : Str) : Option Str :=
  returnTypeCapGo r ((r.takeWhile Char.isWhitespace).length)

/-- Leftmost match of `->\s*([^{\n]+)` in a signature line. -/
def returnTypeScan : Str → Option Str
  | [] => none
  | c :: rest =>
      if c = '-' then
        match rest with
        | c2 :: r2 =>
            if c2 = '>' then
              match returnTypeCapAt r2 with
              | some cap => some cap
              | none => returnTypeScan rest
            else returnTypeScan rest
        | [] => none
      else returnTypeScan rest

/-- `SorobanParser::extract_return_type` (parser.rs 377-391); the Rust
function's `SorobanResult` wrapper never carries an error, so the
embedding returns the option directly. -/
def extract_return_type (func_signature : Str) : Option Str :=
  match returnTypeScan func_signature with
  | some cap =>
      let clean := trim cap
      if ! clean.isEmpty then some clean else none
  | none => none

/-- Body-collection loop of `parse_function` (parser.rs 324-335): runs
while the brace counter is positive, pushing trimmed lines. -/
def collectFuncLines : List Str → Int → List Str
  | [], _ => []
  | l :: rest, count =>
      if count > 0 then
        let line := trim l
        let c1 := if containsChar line '{' then count + 1 else count
        let c2 := if containsChar line '}' then c1 - 1 else c1
        line :: collectFuncLines rest c2
      else []

/-- `SorobanParser::parse_function` (parser.rs 287-346). -/
def parse_function (lines : List Str) (start_line : Nat) :
    SorobanResult (Option SorobanFunction) :=
  match lines with
  | [] => .ok none
  | l0 :: rest =>
      let func_line := trim l0
      if ! (startsWithStr func_line "pub ".data &&
            containsStr func_line "fn ".data) then .ok none
      else
        match findKwCapture "fn".data func_line with
        | none => .error (.parseErr (.ParseError
            ("Could not parse function name from: ".data ++ func_line)))
        | some name =>
            match extract_parameters func_line with
            | .error e => .error e
            | .ok params =>
                let return_type := extract_return_type func_line
                let is_constructor :=
                  name = "new".data ∨ endsWithStr name "_init".data
                let brace0 : Int := if containsChar func_line '{' then 1 else 0
                let func_lines := func_line :: collectFuncLines rest brace0
                .ok (some { name := name, params := params,
                            return_type := return_type,
                            visibility := .Public,
                            is_constructor := is_constructor,
                            line_number := start_line,
                            raw_definition := joinSep "\n".data func_lines })

/-- Body loop of `parse_single_impl` (parser.rs 253-276): pushes trimmed
lines, breaks when the brace counter reaches zero after a `}`, and starts
a `parse_function` (propagating its errors) on every line at depth one
that begins with `pub ` and contains `fn `.  The `fuel` argument only
makes the recursion structural; any `fuel > orig.length` yields the
loop's value. -/
def parse_impl_go (orig : List Str) (start_line : Nat) :
    Nat → Nat → Int → SorobanResult (List Str × List SorobanFunction)
  | 0, _, _ => .ok ([], [])
  | fuel + 1, idx, count =>
      if idx < orig.length then
        let line := trim (orig.getD idx [])
        let c1 := if containsChar line '{' then count + 1 else count
        let hasClose := containsChar line '}'
        let c2 := if hasClose then c1 - 1 else c1
        if hasClose ∧ c2 = 0 then .ok ([line], [])
        else if c2 = 1 ∧ startsWithStr line "pub ".data ∧
            containsStr line "fn ".data then
          match parse_function (orig.drop idx) (start_line + idx) with
          | .error e => .error e
          | .ok fo =>
              match parse_impl_go orig start_line fuel (idx + 1) c2 with
              | .error e => .error e
              | .ok (ls, fs) =>
                  .ok (line :: ls,
                    match fo with
                    | some f => f :: fs
                    | none => fs)
        else
          (parse_impl_go orig start_line fuel (idx + 1) c2).map
            (fun r => (line :: r.1, r.2))
      else .ok ([], [])

/-- `SorobanParser::parse_single_impl` (parser.rs 231-284). -/
def parse_single_impl (lines : List Str) (start_line : Nat) :
    SorobanResult (Option SorobanImpl) :=
  match lines with
  | [] => .ok none
  | l0 :: _ =>
      let impl_line := trim l0
      if ! startsWithStr impl_line "impl".data then .ok none
      else
        match implTargetCapture impl_line with
        | none => .error (.parseErr (.ParseError
            ("Could not parse impl target from: ".data ++ impl_line)))
        | some target =>
            match parse_impl_go lines start_line (lines.length + 1) 1 0 with
            | .error e => .error e
            | .ok (ls, functions) =>
                .ok (some { target := target, functions := functions,
                            line_number := start_line,
                            raw_definition :=
                              joinSep "\n".data (impl_line :: ls) })

/-- Outer loop of `parse_implementations` (parser.rs 200-228); fuel as in
`parse_contract_types_go`. -/
def parse_implementations_go (lines : List Str) :
    Nat → Nat → SorobanResult (List SorobanImpl)
  | 0, _ => .ok []
  | fuel + 1, i =>
      if i < lines.length then
        if startsWithStr (trim (lines.getD i [])) "#[contractimpl]".data then
          match (lines.drop (i + 1)).findIdx?
              (fun l => startsWithStr (trim l) "impl".data) with
          | none => .ok []
          | some k =>
              match parse_single_impl (lines.drop (i + 1 + k)) (i + 1) with
              | .error e => .error e
              | .ok none => parse_implementations_go lines fuel (i + 1 + k + 1)
              | .ok (some im) =>
                  (parse_implementations_go lines fuel (i + 1 + k + 1)).map
                    (im :: ·)
        else parse_implementations_go lines fuel (i + 1)
      else .ok []

/-- `SorobanParser::parse_implementations` (parser.rs 200-228). -/
def parse_implementations (lines : List Str) : SorobanResult (List SorobanImpl) :=
  parse_implementations_go lines (lines.length + 1) 0

/-- `SorobanParser::parse_contract` (parser.rs 15-34): contract name, then
the types pass, then the implementations pass, each propagating errors. -/
def parse_contract (source : Str) (file_path : Str) :
    SorobanResult SorobanContract :=
  let lines := rustLines source
  match extract_contract_name source with
  | .error e => .error e
  | .ok contract_name =>
      match parse_contract_types lines with
      | .error e => .error e
      | .ok contract_types =>
          match parse_implementations lines with
          | .error e => .error e
          | .ok implementations =>
              .ok { name := contract_name,
                    contract_types := contract_types,
                    implementations := implementations,
                    source := source, file_path := file_path }

end SorobanParser

/-- `SorobanRuleEngine::analyze` (soroban/rule_engine.rs 52-68) from raw
source: parse, then the analyzer and every enabled rule in the engine's
iteration order. -/
def SorobanRuleEngine.analyze (rulesIter : List (SorobanRuleId × Bool))
    (source file_path : Str) : SorobanResult (List RuleViolation) :=
  (SorobanParser.parse_contract source file_path).map
    (SorobanRuleEngine.applyRules rulesIter)

/-! ## `libs/engine`: scan results, storage savings, directory scan

`gasguard_rules::RuleViolation` (packages/rules/src/rule_engine.rs 5-14) is
the violation record of the syn-based pipeline; it carries a
`column_number` in addition to the soroban record's fields.  The `f64`
arithmetic of `calculate_storage_savings` is modelled over `ℚ`
(`2.5 = 5/2`, `0.001 = 1/1000`); both constants and every intermediate
value of the source computation are exactly representable. -/

structure EngineRuleViolation where
  rule_name : Str
  description : Str
  severity : ViolationSeverity
  line_number : Nat
  column_number : Nat
  variable_name : Str
  suggestion : Str
deriving DecidableEq, Repr

/-- `StorageSavings` (libs/engine/src/analyzer.rs 122-127). -/
structure StorageSavings where
  unused_variables : Nat
  estimated_savings_kb : ℚ
  monthly_ledger_rent_savings : ℚ
deriving DecidableEq, Repr

namespace ScanAnalyzer

/-- `ScanAnalyzer::calculate_storage_savings` (libs/engine/src/analyzer.rs
61-79): a single pass that counts violations whose `rule_name` is
`unused-state-variables` (the syn-based rule's id, plural) and accumulates
`2.5` KB for each; the monthly rent estimate is the accumulated KB times
`0.001`. -/
def calculate_storage_savings (violations : List EngineRuleViolation) :
    StorageSavings :=
  let acc := violations.foldl
    (fun (acc : Nat × ℚ) violation =>
      if violation.rule_name = "unused-state-variables".data then
        (acc.1 + 1, acc.2 + 5 / 2)
      else acc)
    (0, 0)
  { unused_variables := acc.1
    estimated_savings_kb := acc.2
    monthly_ledger_rent_savings := acc.2 * (1 / 1000) }

end ScanAnalyzer

/-- `Language` (libs/engine/src/scanner.rs 7-10); named `ScanLanguage`
here because Mathlib already declares `Language`. -/
inductive ScanLanguage where
  | Rust
  | Vyper
deriving DecidableEq, Repr

/-- `Language::from_extension` (libs/engine/src/scanner.rs 14-20). -/
def ScanLanguage.from_extension (ext : Str) : Option ScanLanguage :=
  let e := ext.map Char.toLower
  if e = "rs".data then some .Rust
  else if e = "vy".data then some .Vyper
  else none

/-- `ScanResult` (libs/engine/src/scanner.rs 134-139); the chrono timestamp
is abstracted to a number. -/
structure EngineScanResult where
  source : Str
  violations : List EngineRuleViolation
  scan_time : Nat
deriving DecidableEq, Repr

deriving instance DecidableEq for Except

/-- One entry of the `walkdir` traversal as consumed by `scan_directory`:
its file extension, and the outcome that `scan_file` produces for it (the
file read and per-language engine run are I/O collaborators external to
the directory loop being modelled). -/
structure DirEntry where
  extension : Str
  outcome : Except Str EngineScanResult
deriving DecidableEq, Repr

namespace ContractScanner

/-- Loop body of `ContractScanner::scan_directory` (scanner.rs 105-125)
over the extension-filtered entries: the first per-file error aborts the
whole batch (`?`), and a successful result is kept **only when its
violation list is non-empty**. -/
def scan_directory_go : List DirEntry → Except Str (List EngineScanResult)
  | [] => .ok []
  | e :: rest =>
      match e.outcome with
      | .error msg => .error msg
      | .ok r =>
          match scan_directory_go rest with
          | .error m => .error m
          | .ok rs => .ok (if r.violations.isEmpty then rs else r :: rs)

/-- `ContractScanner::scan_directory` (scanner.rs 105-125): filter walked
entries to recognized extensions, then run the collection loop. -/
def scan_directory (entries : List DirEntry) :
    Except Str (List EngineScanResult) :=
  scan_directory_go (entries.filter
    (fun e => (ScanLanguage.from_extension e.extension).isSome))

end ContractScanner

/-! ## syn-based usage analysis (packages/rules/src/rule_engine.rs 56-271,
unused_state_variables.rs 119-137)

The syntax tree supplied by the external `syn` parser is embedded by one
constructor per node kind that `extract_variables_from_expr` /
`extract_variables_from_stmt` / `extract_variables_from_pat` dispatch on;
the catch-all `_ => {}` arms are the `other*` constructors.  Identifiers
are plain strings here, so the lexical guarantee of `syn::Ident` (an
identifier token never contains `.`) becomes the explicit well-formedness
predicate `wf*`.  The `HashSet<String>` accumulator is modelled as the
list of inserted identifiers; every claim about it is membership-only. -/

mutual

inductive SynExpr where
  | path (segments : List Str)
  | fieldE (base : SynExpr) (member : Option Str)
  | methodCall (receiver : SynExpr) (args : List SynExpr)
  | binary (left right : SynExpr)
  | unary (arg : SynExpr)
  | call (func : SynExpr) (args : List SynExpr)
  | blockE (stmts : List SynStmt)
  | ifE (cond : SynExpr) (thenBranch : List SynStmt) (elseBranch : Option SynExpr)
  | matchE (scrutinee : SynExpr) (armBodies : List SynExpr)
  | whileE (cond : SynExpr) (body : List SynStmt)
  | forLoop (pat : SynPat) (iter : SynExpr) (body : List SynStmt)
  | returnE (arg : Option SynExpr)
  | structE (fieldValues : List SynExpr) (rest : Option SynExpr)
  | otherExpr

inductive SynPat where
  | identP (name : Str)
  | structP (fieldPats : List SynPat)
  | tupleP (elems : List SynPat)
  | tupleStructP (elems : List SynPat)
  | referenceP (inner : SynPat)
  | otherPat

inductive SynStmt where
  | localS (pat : SynPat) (init : Option SynExpr)
  | itemS
  | exprS (e : SynExpr)
  | macroStmt

end

/-- `is_rust_keyword` (rule_engine.rs 208-271): the exact token list. -/
def rustKeywords : List Str :=
  ["self".data, "Self".data, "super".data, "crate".data, "mod".data,
   "use".data, "pub".data, "const".data, "static".data, "let".data,
   "fn".data, "struct".data, "enum".data, "impl".data, "trait".data,
   "where".data, "for".data, "while".data, "loop".data, "if".data,
   "else".data, "match".data, "break".data, "continue".data, "return".data,
   "async".data, "await".data, "move".data, "ref".data, "mut".data,
   "unsafe".data, "extern".data, "type".data, "union".data, "macro".data,
   "Some".data, "None".data, "Ok".data, "Err".data, "Result".data,
   "Option".data, "Vec".data, "String".data, "str".data, "bool".data,
   "u8".data, "u16".data, "u32".data, "u64".data, "u128".data,
   "i8".data, "i16".data, "i32".data, "i64".data, "i128".data,
   "f32".data, "f64".data, "usize".data, "isize".data]

/-- `is_rust_keyword` membership test. -/
def is_rust_keyword (ident : Str) : Bool :=
  rustKeywords.contains ident

mutual

/-- `extract_variables_from_expr` (rule_engine.rs 95-179), returning the
identifiers inserted into the usage set, in insertion order. -/
def extract_variables_from_expr : SynExpr → List Str
  | .path segments =>
      (match segments.getLast? with
       | some ident => if ! is_rust_keyword ident then [ident] else []
       | none => [])
  | .fieldE base member =>
      extract_variables_from_expr base ++
        (match member with
         | some ident => [ident]
         | none => [])
  | .methodCall receiver args =>
      extract_variables_from_expr receiver ++ extractExprList args
  | .binary l r =>
      extract_variables_from_expr l ++ extract_variables_from_expr r
  | .unary a => extract_variables_from_expr a
  | .call f args => extract_variables_from_expr f ++ extractExprList args
  | .blockE stmts => extractStmtList stmts
  | .ifE cond thenB elseB =>
      extract_variables_from_expr cond ++ extractStmtList thenB ++
        (match elseB with
         | some e => extract_variables_from_expr e
         | none => [])
  | .matchE scrut arms =>
      extract_variables_from_expr scrut ++ extractExprList arms
  | .whileE cond body =>
      extract_variables_from_expr cond ++ extractStmtList body
  | .forLoop pat iter body =>
      extract_variables_from_pat pat ++ extract_variables_from_expr iter ++
        extractStmtList body
  | .returnE arg =>
      (match arg with
       | some e => extract_variables_from_expr e
       | none => [])
  | .structE fieldValues rest =>
      extractExprList fieldValues ++
        (match rest with
         | some e => extract_variables_from_expr e
         | none => [])
  | .otherExpr => []

def extractExprList : List SynExpr → List Str
  | [] => []
  | e :: es => extract_variables_from_expr e ++ extractExprList es

/-- `extract_variables_from_stmt` (rule_engine.rs 79-93). -/
def extract_variables_from_stmt : SynStmt → List Str
  | .localS pat init =>
      extract_variables_from_pat pat ++
        (match init with
         | some e => extract_variables_from_expr e
         | none => [])
  | .itemS => []
  | .exprS e => extract_variables_from_expr e
  | .macroStmt => []

def extractStmtList : List SynStmt → List Str
  | [] => []
  | s :: ss => extract_variables_from_stmt s ++ extractStmtList ss

/-- `extract_variables_from_pat` (rule_engine.rs 181-206). -/
def extract_variables_from_pat : SynPat → List Str
  | .identP name => [name]
  | .structP fieldPats => extractPatList fieldPats
  | .tupleP elems => extractPatList elems
  | .tupleStructP elems => extractPatList elems
  | .referenceP inner => extract_variables_from_pat inner
  | .otherPat => []

def extractPatList : List SynPat → List Str
  | [] => []
  | p :: ps => extract_variables_from_pat p ++ extractPatList ps

end

/-- An item of a syn `ItemImpl`: `find_variable_usage` only descends into
`ImplItem::Fn` bodies. -/
inductive SynImplItem where
  | fnItem (stmts : List SynStmt)
  | otherImplItem

/-- `find_variable_usage` (rule_engine.rs 64-77). -/
def find_variable_usage (items : List SynImplItem) : List Str :=
  items.flatMap fun item =>
    match item with
    | .fnItem stmts => extractStmtList stmts
    | .otherImplItem => []

/-- Identifier strings free of `.` (what `syn::Ident` lexically
guarantees). -/
def noDot (s : Str) : Bool :=
  ! s.contains '.'

mutual

/-- Trees whose embedded identifier strings are all `.`-free, as `syn`
guarantees of every tree it produces. -/
def wfExpr : SynExpr → Bool
  | .path segments => segments.all noDot
  | .fieldE base member =>
      wfExpr base &&
        (match member with
         | some ident => noDot ident
         | none => true)
  | .methodCall receiver args => wfExpr receiver && wfExprList args
  | .binary l r => wfExpr l && wfExpr r
  | .unary a => wfExpr a
  | .call f args => wfExpr f && wfExprList args
  | .blockE stmts => wfStmtList stmts
  | .ifE cond thenB elseB =>
      wfExpr cond && wfStmtList thenB &&
        (match elseB with
         | some e => wfExpr e
         | none => true)
  | .matchE scrut arms => wfExpr scrut && wfExprList arms
  | .whileE cond body => wfExpr cond && wfStmtList body
  | .forLoop pat iter body => wfPat pat && wfExpr iter && wfStmtList body
  | .returnE arg =>
      (match arg with
       | some e => wfExpr e
       | none => true)
  | .structE fieldValues rest =>
      wfExprList fieldValues &&
        (match rest with
         | some e => wfExpr e
         | none => true)
  | .otherExpr => true

def wfExprList : List SynExpr → Bool
  | [] => true
  | e :: es => wfExpr e && wfExprList es

def wfStmt : SynStmt → Bool
  | .localS pat init =>
      wfPat pat &&
        (match init with
         | some e => wfExpr e
         | none => true)
  | .itemS => true
  | .exprS e => wfExpr e
  | .macroStmt => true

def wfStmtList : List SynStmt → Bool
  | [] => true
  | s :: ss => wfStmt s && wfStmtList ss

def wfPat : SynPat → Bool
  | .identP name => noDot name
  | .structP fieldPats => wfPatList fieldPats
  | .tupleP elems => wfPatList elems
  | .tupleStructP elems => wfPatList elems
  | .referenceP inner => wfPat inner
  | .otherPat => true

def wfPatList : List SynPat → Bool
  | [] => true
  | p :: ps => wfPat p && wfPatList ps

end

/-- Well-formedness of an impl block's items. -/
def wfImplItems (items : List SynImplItem) : Bool :=
  items.all fun item =>
    match item with
    | .fnItem stmts => wfStmtList stmts
    | .otherImplItem => true

namespace UnusedStateVariablesRuleSyn

open RustStr

/-- Qualified-access branch of `is_variable_used`
(unused_state_variables.rs 126-134): some recorded reference contains
`self.VAR` or `self?.VAR` as a substring. -/
def qualifiedSelfHit (var_name : Str) (used_variables : List Str) : Bool :=
  used_variables.any fun used_var =>
    containsStr used_var ("self.".data ++ var_name) ||
      containsStr used_var ("self?.".data ++ var_name)

/-- `UnusedStateVariablesRule::is_variable_used`
(unused_state_variables.rs 119-137). -/
def is_variable_used (var_name : Str) (used_variables : List Str) : Bool :=
  used_variables.contains var_name || qualifiedSelfHit var_name used_variables

end UnusedStateVariablesRuleSyn

/-! ## Reference definitions for the extraction primitives

`runDepth` and `matchCloseRef` are specification-side descriptions of
balanced-delimiter structure, used to state what "well-formed nested
input" and "matching closing delimiter" mean; they are compared against
the source-derived `extractBetween`. -/

/-- Depth contribution of one character for a delimiter pair. -/
def delimDelta (o c x : Char) : Int :=
  if x = o then 1 else if x = c then -1 else 0

/-- Net nesting depth of a string for a delimiter pair. -/
def runDepth (o c : Char) (l : Str) : Int :=
  (l.map (delimDelta o c)).sum

/-- Reference scanner: from depth `k` (`k ≥ 1`), split `tail` at the
matching closing delimiter, returning the interior and what follows the
close; `none` when the delimiters never rebalance. -/
def matchCloseRef (o c : Char) : Str → Nat → Option (Str × Str)
  | [], _ => none
  | x :: rest, k =>
      let k' := if x = o then k + 1 else if x = c then k - 1 else k
      if k' = 0 then some ([], rest)
      else (matchCloseRef o c rest k').map (fun y => (x :: y.1, y.2))

/-- Reference splitter for `split_preserving_parentheses`: raw segments of
`text`, cut exactly at those occurrences of `delimiter` where all three
running depth counters of the already-consumed prefix (updated through the
delimiter character itself) are zero; no trimming, empty segments kept. -/
def segsRef (delimiter : Char) : Str → Int → Int → Int → List Str
  | [], _, _, _ => [[]]
  | ch :: rest, paren, bracket, brace =>
      let paren' := if ch = '(' then paren + 1
        else if ch = ')' then paren - 1 else paren
      let bracket' := if ch = '[' then bracket + 1
        else if ch = ']' then bracket - 1 else bracket
      let brace' := if ch = '{' then brace + 1
        else if ch = '}' then brace - 1 else brace
      if ch = delimiter ∧ paren' = 0 ∧ bracket' = 0 ∧ brace' = 0 then
        [] :: segsRef delimiter rest paren' bracket' brace'
      else
        match segsRef delimiter rest paren' bracket' brace' with
        | s :: ss => (ch :: s) :: ss
        | [] => [[ch]]

/-- Prepend accumulated characters to the first raw segment. -/
def consFirst (pre : Str) : List Str → List Str
  | [] => [pre]
  | s :: ss => (pre ++ s) :: ss

/-- Push policy of `split_preserving_parentheses` applied to raw segments:
every segment except the last is pushed trimmed (even when empty); the
last is pushed trimmed only when non-empty after trimming. -/
def finalizeSegs (l : List Str) : List Str :=
  l.dropLast.map RustStr.trim ++
    (match l.getLast? with
     | some last =>
         if (RustStr.trim last).isEmpty then [] else [RustStr.trim last]
     | none => [])

/-! ## Concrete inputs used by counterexamples and witnesses -/

/-- A violation whose `rule_name` is the spec's singular id
`unused-state-variable`. -/
def singularIdViolation : EngineRuleViolation :=
  { rule_name := "unused-state-variable".data
    description := []
    severity := .Warning
    line_number := 0
    column_number := 0
    variable_name := "x".data
    suggestion := [] }

/-- A violation carrying the id the code actually counts
(`unused-state-variables`). -/
def pluralIdViolation : EngineRuleViolation :=
  { rule_name := "unused-state-variables".data
    description := []
    severity := .Warning
    line_number := 0
    column_number := 0
    variable_name := "x".data
    suggestion := [] }

/-- Field mentioned only once in the source of `exampleContractA`. -/
def omegaField : SorobanField :=
  { name := "omega".data, type_name := "u32".data,
    visibility := .Public, line_number := 4 }

/-- Contract IR with one field mentioned twice in the source (`alpha`) and
one mentioned once (`omega`). -/
def exampleContractA : SorobanContract :=
  { name := "Tok".data
    contract_types :=
      [{ name := "Tok".data
         fields :=
           [{ name := "alpha".data, type_name := "u64".data,
              visibility := .Public, line_number := 3 },
            omegaField]
         line_number := 2
         raw_definition := [] }]
    implementations := []
    source := "alpha alpha omega".data
    file_path := "t.rs".data }

/-- Contract IR with no types and no implementations: both structural
rules (`missing-constructor`, `admin-pattern`) fire. -/
def emptyContract : SorobanContract :=
  { name := "C".data
    contract_types := []
    implementations := []
    source := []
    file_path := [] }

/-- The default rules with `MissingConstructorRule` and `AdminPatternRule`
transposed: a permutation of the registration order that a `HashMap`
iteration is free to produce. -/
def sorobanSwappedRules : List (SorobanRuleId × Bool) :=
  [(.unusedStateVariables, true), (.inefficientStorageAccess, true),
   (.unboundedLoop, true), (.expensiveStringOperations, true),
   (.adminPattern, true), (.missingConstructor, true),
   (.inefficientIntegerTypes, true), (.missingErrorHandling, true)]

/-- Function whose raw body performs exactly three `.get(` calls (and no
`.set(`/`.load(`/`.store(`). -/
def probeFunction : SorobanFunction :=
  { name := "probe".data, params := [], return_type := none,
    visibility := .Public, is_constructor := true, line_number := 5,
    raw_definition := "a.get(1); b.get(2); c.get(3)".data }

/-- Contract IR whose only function is `probeFunction`. -/
def threeGetsContract : SorobanContract :=
  { name := "S".data
    contract_types := []
    implementations :=
      [{ target := "S".data
         functions := [probeFunction]
         line_number := 4
         raw_definition := [] }]
    source := []
    file_path := [] }

/-- Function named `set_admin` with no return type. -/
def setAdminFunction : SorobanFunction :=
  { name := "set_admin".data, params := [], return_type := none,
    visibility := .Public, is_constructor := false, line_number := 7,
    raw_definition := [] }

/-- Contract IR whose only function is `setAdminFunction`. -/
def setAdminContract : SorobanContract :=
  { name := "S".data
    contract_types := []
    implementations :=
      [{ target := "S".data
         functions := [setAdminFunction]
         line_number := 6
         raw_definition := [] }]
    source := []
    file_path := [] }

/-- Lines of a `#[contracttype]` unit whose field fragment `badfield` has
no `:`. -/
def badStructLines : List Str :=
  ["#[contracttype]".data, "struct Bad \x7b".data, "badfield".data,
   "\x7d".data]

/-- Lines of a well-formed `#[contractimpl]` unit with one public
function. -/
def goodImplLines : List Str :=
  ["#[contractimpl]".data, "impl Good \x7b".data,
   "pub fn transfer_coins(a: u32) \x7b".data, "body()".data, "\x7d".data,
   "\x7d".data]

/-- A file whose first unit is the malformed struct and whose second unit
is the well-formed impl. -/
def mixedLines : List Str :=
  badStructLines ++ goodImplLines

/-- The mixed file as raw source text (lines joined by newlines). -/
def mixedSource : Str := RustStr.joinSep "\n".data mixedLines

/-- Scan result of a file with one violation. -/
def dirtyScanResult : EngineScanResult :=
  { source := "dirty.rs".data, violations := [pluralIdViolation],
    scan_time := 2 }

/-- Directory entries: a recognized clean file, a recognized file with one
violation, and an unrecognized extension. -/
def exampleDirEntries : List DirEntry :=
  [{ extension := "rs".data,
     outcome := .ok { source := "clean.rs".data, violations := [],
                      scan_time := 1 } },
   { extension := "rs".data, outcome := .ok dirtyScanResult },
   { extension := "txt".data,
     outcome := .ok { source := "notes.txt".data,
                      violations := [pluralIdViolation], scan_time := 3 } }]

/-- A small impl block: one method whose body is `self.counter`. -/
def exampleImplItems : List SynImplItem :=
  [.fnItem [.exprS (.fieldE (.path ["self".data]) (some "counter".data))]]

/-! # Theorems -/

/-! ## C2 — storage savings -/

/-- Invariant of the accumulation loop of `calculate_storage_savings`. -/
theorem css_foldl_invariant (vs : List EngineRuleViolation) (n : Nat) (q : ℚ) :
    vs.foldl
      (fun (acc : Nat × ℚ) violation =>
        if violation.rule_name = "unused-state-variables".data then
          (acc.1 + 1, acc.2 + 5 / 2)
        else acc)
      (n, q) =
    (n + vs.countP (fun v => v.rule_name = "unused-state-variables".data),
     q + (5 / 2) *
       (vs.countP (fun v => v.rule_name = "unused-state-variables".data) : ℚ)) := by
  induction vs generalizing n q with
  | nil => simp
  | cons v t ih =>
      by_cases h : v.rule_name = "unused-state-variables".data
      · rw [List.foldl_cons, if_pos h, ih, List.countP_cons]
        have hp : decide (v.rule_name = "unused-state-variables".data) = true := by
          simp [h]
        rw [hp]
        simp only [if_true, Prod.mk.injEq]
        refine ⟨by omega, ?_⟩
        push_cast
        ring
      · rw [List.foldl_cons, if_neg h, ih, List.countP_cons]
        have hp : decide (v.rule_name = "unused-state-variables".data) = false := by
          simp [h]
        rw [hp]
        simp

/-- C2 (counterexample): the claim counts violations whose ruleId is
`unused-state-variable`, but `calculate_storage_savings` matches the
string `unused-state-variables` (plural): on a list holding exactly one
violation with the singular id, the claim predicts `unusedFieldCount = 1`,
while the code yields `0`. -/
theorem storage_savings_singular_id_not_counted :
    (ScanAnalyzer.calculate_storage_savings [singularIdViolation]).unused_variables = 0 ∧
    ([singularIdViolation].countP
      (fun v => v.rule_name = "unused-state-variable".data)) = 1 := by
  constructor
  · rfl
  · decide

/-- C2 (amended): `calculate_storage_savings` returns `unusedFieldCount`
equal to the count of violations whose ruleId is `unused-state-variables`
(the id of the syn-based unused-variable rule — plural, unlike the spec's
`unused-state-variable`), `estimatedKB = 2.5 * unusedFieldCount`,
`estimatedMonthlyRent = estimatedKB * 0.001`, and hence the function is
linear: for N such violations `estimatedKB = 2.5*N` and
`estimatedMonthlyRent = 0.0025*N` (over exact rational arithmetic; both
constants and all intermediate values are exactly representable in the
source's `f64`). -/
theorem calculate_storage_savings_spec (violations : List EngineRuleViolation) :
    (ScanAnalyzer.calculate_storage_savings violations).unused_variables =
      violations.countP (fun v => v.rule_name = "unused-state-variables".data) ∧
    (ScanAnalyzer.calculate_storage_savings violations).estimated_savings_kb =
      (5 / 2) *
        (violations.countP
          (fun v => v.rule_name = "unused-state-variables".data) : ℚ) ∧
    (ScanAnalyzer.calculate_storage_savings violations).monthly_ledger_rent_savings =
      (ScanAnalyzer.calculate_storage_savings violations).estimated_savings_kb *
        (1 / 1000) ∧
    (ScanAnalyzer.calculate_storage_savings violations).monthly_ledger_rent_savings =
      (1 / 400) *
        (violations.countP
          (fun v => v.rule_name = "unused-state-variables".data) : ℚ) := by
  unfold ScanAnalyzer.calculate_storage_savings
  rw [css_foldl_invariant]
  refine ⟨by simp, by simp, rfl, ?_⟩
  simp only
  ring

/-! ## C10 — directory scan keeps only violating files -/

/-- Collection loop of `scan_directory`: a successful run returns exactly
the successful per-file results whose violation lists are non-empty, in
walk order. -/
theorem scan_directory_go_ok (l : List DirEntry) (rs : List EngineScanResult)
    (h : ContractScanner.scan_directory_go l = .ok rs) :
    rs = (l.filterMap (fun e =>
            match e.outcome with
            | .ok r => some r
            | .error _ => none)).filter
          (fun r => ! r.violations.isEmpty) := by
  induction l generalizing rs with
  | nil =>
      simp only [ContractScanner.scan_directory_go, Except.ok.injEq] at h
      simp [← h]
  | cons e t ih =>
      unfold ContractScanner.scan_directory_go at h
      cases he : e.outcome with
      | error m => rw [he] at h; exact absurd h (by simp)
      | ok r =>
          rw [he] at h
          cases hg : ContractScanner.scan_directory_go t with
          | error m => rw [hg] at h; exact absurd h (by simp)
          | ok rs' =>
              rw [hg] at h
              simp only [Except.ok.injEq] at h
              subst h
              rw [List.filterMap_cons]
              rw [he]
              by_cases hv : r.violations.isEmpty
              · rw [if_pos hv]
                rw [List.filter_cons_of_neg (by simp [hv])]
                exact ih rs' hg
              · rw [if_neg hv]
                rw [List.filter_cons_of_pos (by simp [hv])]
                rw [ih rs' hg]

/-- C10: a successful `scan_directory` returns a `ScanResult` only for
scanned files whose scan produced at least one violation; a cleanly
scanned file with zero violations contributes nothing, and the result
list is never longer than the walked entry list. -/
theorem scan_directory_only_violating_files (entries : List DirEntry)
    (results : List EngineScanResult)
    (h : ContractScanner.scan_directory entries = .ok results) :
    results =
      ((entries.filter
          (fun e => (ScanLanguage.from_extension e.extension).isSome)).filterMap
        (fun e =>
          match e.outcome with
          | .ok r => some r
          | .error _ => none)).filter
        (fun r => ! r.violations.isEmpty) ∧
    (∀ r ∈ results, r.violations ≠ []) ∧
    results.length ≤ entries.length := by
  unfold ContractScanner.scan_directory at h
  have hc := scan_directory_go_ok _ _ h
  refine ⟨hc, ?_, ?_⟩
  · intro r hr
    rw [hc] at hr
    have := List.of_mem_filter hr
    simpa [List.isEmpty_iff] using this
  · calc results.length ≤
        ((entries.filter
            (fun e => (ScanLanguage.from_extension e.extension).isSome)).filterMap
          (fun e =>
            match e.outcome with
            | .ok r => some r
            | .error _ => none)).length := by
          rw [hc]; exact List.length_filter_le _ _
      _ ≤ (entries.filter
            (fun e => (ScanLanguage.from_extension e.extension).isSome)).length :=
          List.length_filterMap_le _ _
      _ ≤ entries.length := List.length_filter_le _ _

/-- C10 (witness): on the three concrete entries (a clean `.rs` file, a
violating `.rs` file, a `.txt` file) the theorem applies and yields the
single violating result. -/
theorem scan_directory_only_violating_files_witness :
    (∀ r ∈ [dirtyScanResult], r.violations ≠ []) ∧
    [dirtyScanResult].length ≤ exampleDirEntries.length := by
  have h0 : ContractScanner.scan_directory exampleDirEntries =
      .ok [dirtyScanResult] := by decide
  have h := scan_directory_only_violating_files exampleDirEntries
    [dirtyScanResult] h0
  exact ⟨h.2.1, h.2.2⟩

/-! ## C9 — the usage set holds only bare identifiers -/

/-- Substring containment implies character containment. -/
theorem containsStr_subset (hay needle : Str)
    (h : RustStr.containsStr hay needle = true) :
    ∀ ch ∈ needle, ch ∈ hay := by
  induction hay with
  | nil =>
      intro ch hch
      rw [RustStr.containsStr] at h
      split at h
      · next hp =>
          have := List.isPrefixOf_iff_prefix.mp hp
          exact absurd (this.subset hch) (by simp)
      · exact absurd h (by simp)
  | cons c rest ih =>
      intro ch hch
      rw [RustStr.containsStr] at h
      split at h
      · next hp =>
          exact (List.isPrefixOf_iff_prefix.mp hp).subset hch
      · exact List.mem_cons_of_mem c (ih h ch hch)


mutual

/-- Every identifier inserted by the expression traversal is `.`-free. -/
theorem noDot_extractExpr (e : SynExpr) (hw : wfExpr e = true) :
    ∀ s ∈ extract_variables_from_expr e, noDot s = true := by
  cases e with
  | path segments =>
      intro s hs
      rw [extract_variables_from_expr] at hs
      rw [wfExpr] at hw
      split at hs
      · next ident heq =>
          split at hs
          · simp only [List.mem_singleton] at hs
            subst hs
            exact (List.all_eq_true.mp hw) s (List.mem_of_mem_getLast? heq)
          · cases hs
      · cases hs
  | fieldE base member =>
      intro s hs
      cases member with
      | none =>
          rw [extract_variables_from_expr] at hs
          rw [wfExpr] at hw
          obtain ⟨hwb, -⟩ := Bool.and_eq_true_iff.mp hw
          rcases List.mem_append.mp hs with hs | hs
          · exact noDot_extractExpr base hwb s hs
          · simp at hs
      | some ident =>
          rw [extract_variables_from_expr] at hs
          rw [wfExpr] at hw
          obtain ⟨hwb, hwm⟩ := Bool.and_eq_true_iff.mp hw
          rcases List.mem_append.mp hs with hs | hs
          · exact noDot_extractExpr base hwb s hs
          · simp only [List.mem_singleton] at hs
            subst hs
            exact hwm
  | methodCall receiver args =>
      intro s hs
      rw [extract_variables_from_expr] at hs
      rw [wfExpr] at hw
      obtain ⟨hw1, hw2⟩ := Bool.and_eq_true_iff.mp hw
      rcases List.mem_append.mp hs with hs | hs
      · exact noDot_extractExpr receiver hw1 s hs
      · exact noDot_extractExprList args hw2 s hs
  | binary l r =>
      intro s hs
      rw [extract_variables_from_expr] at hs
      rw [wfExpr] at hw
      obtain ⟨hw1, hw2⟩ := Bool.and_eq_true_iff.mp hw
      rcases List.mem_append.mp hs with hs | hs
      · exact noDot_extractExpr l hw1 s hs
      · exact noDot_extractExpr r hw2 s hs
  | unary a =>
      intro s hs
      rw [extract_variables_from_expr] at hs
      rw [wfExpr] at hw
      exact noDot_extractExpr a hw s hs
  | call f args =>
      intro s hs
      rw [extract_variables_from_expr] at hs
      rw [wfExpr] at hw
      obtain ⟨hw1, hw2⟩ := Bool.and_eq_true_iff.mp hw
      rcases List.mem_append.mp hs with hs | hs
      · exact noDot_extractExpr f hw1 s hs
      · exact noDot_extractExprList args hw2 s hs
  | blockE stmts =>
      intro s hs
      rw [extract_variables_from_expr] at hs
      rw [wfExpr] at hw
      exact noDot_extractStmtList stmts hw s hs
  | ifE cond thenB elseB =>
      intro s hs
      cases elseB with
      | none =>
          rw [extract_variables_from_expr] at hs
          rw [wfExpr] at hw
          obtain ⟨hw12, -⟩ := Bool.and_eq_true_iff.mp hw
          obtain ⟨hw1, hw2⟩ := Bool.and_eq_true_iff.mp hw12
          rcases List.mem_append.mp hs with hs | hs
          · rcases List.mem_append.mp hs with hs | hs
            · exact noDot_extractExpr cond hw1 s hs
            · exact noDot_extractStmtList thenB hw2 s hs
          · simp at hs
      | some e =>
          rw [extract_variables_from_expr] at hs
          rw [wfExpr] at hw
          obtain ⟨hw12, hw3⟩ := Bool.and_eq_true_iff.mp hw
          obtain ⟨hw1, hw2⟩ := Bool.and_eq_true_iff.mp hw12
          rcases List.mem_append.mp hs with hs | hs
          · rcases List.mem_append.mp hs with hs | hs
            · exact noDot_extractExpr cond hw1 s hs
            · exact noDot_extractStmtList thenB hw2 s hs
          · exact noDot_extractExpr e hw3 s hs
  | matchE scrut arms =>
      intro s hs
      rw [extract_variables_from_expr] at hs
      rw [wfExpr] at hw
      obtain ⟨hw1, hw2⟩ := Bool.and_eq_true_iff.mp hw
      rcases List.mem_append.mp hs with hs | hs
      · exact noDot_extractExpr scrut hw1 s hs
      · exact noDot_extractExprList arms hw2 s hs
  | whileE cond body =>
      intro s hs
      rw [extract_variables_from_expr] at hs
      rw [wfExpr] at hw
      obtain ⟨hw1, hw2⟩ := Bool.and_eq_true_iff.mp hw
      rcases List.mem_append.mp hs with hs | hs
      · exact noDot_extractExpr cond hw1 s hs
      · exact noDot_extractStmtList body hw2 s hs
  | forLoop pat iter body =>
      intro s hs
      rw [extract_variables_from_expr] at hs
      rw [wfExpr] at hw
      obtain ⟨hw12, hw3⟩ := Bool.and_eq_true_iff.mp hw
      obtain ⟨hw1, hw2⟩ := Bool.and_eq_true_iff.mp hw12
      rcases List.mem_append.mp hs with hs | hs
      · rcases List.mem_append.mp hs with hs | hs
        · exact noDot_extractPat pat hw1 s hs
        · exact noDot_extractExpr iter hw2 s hs
      · exact noDot_extractStmtList body hw3 s hs
  | returnE arg =>
      intro s hs
      cases arg with
      | none =>
          rw [extract_variables_from_expr] at hs
          simp at hs
      | some e =>
          rw [extract_variables_from_expr] at hs
          rw [wfExpr] at hw
          exact noDot_extractExpr e hw s hs
  | structE fieldValues rest =>
      intro s hs
      cases rest with
      | none =>
          rw [extract_variables_from_expr] at hs
          rw [wfExpr] at hw
          obtain ⟨hw1, -⟩ := Bool.and_eq_true_iff.mp hw
          rcases List.mem_append.mp hs with hs | hs
          · exact noDot_extractExprList fieldValues hw1 s hs
          · simp at hs
      | some e =>
          rw [extract_variables_from_expr] at hs
          rw [wfExpr] at hw
          obtain ⟨hw1, hw2⟩ := Bool.and_eq_true_iff.mp hw
          rcases List.mem_append.mp hs with hs | hs
          · exact noDot_extractExprList fieldValues hw1 s hs
          · exact noDot_extractExpr e hw2 s hs
  | otherExpr =>
      intro s hs
      rw [extract_variables_from_expr] at hs
      simp at hs

theorem noDot_extractExprList (es : List SynExpr) (hw : wfExprList es = true) :
    ∀ s ∈ extractExprList es, noDot s = true := by
  cases es with
  | nil =>
      intro s hs
      rw [extractExprList] at hs
      simp at hs
  | cons e t =>
      intro s hs
      rw [extractExprList] at hs
      rw [wfExprList] at hw
      obtain ⟨hw1, hw2⟩ := Bool.and_eq_true_iff.mp hw
      rcases List.mem_append.mp hs with hs | hs
      · exact noDot_extractExpr e hw1 s hs
      · exact noDot_extractExprList t hw2 s hs

theorem noDot_extractStmt (st : SynStmt) (hw : wfStmt st = true) :
    ∀ s ∈ extract_variables_from_stmt st, noDot s = true := by
  cases st with
  | localS pat init =>
      intro s hs
      cases init with
      | none =>
          rw [extract_variables_from_stmt] at hs
          rw [wfStmt] at hw
          obtain ⟨hw1, -⟩ := Bool.and_eq_true_iff.mp hw
          rcases List.mem_append.mp hs with hs | hs
          · exact noDot_extractPat pat hw1 s hs
          · simp at hs
      | some e =>
          rw [extract_variables_from_stmt] at hs
          rw [wfStmt] at hw
          obtain ⟨hw1, hw2⟩ := Bool.and_eq_true_iff.mp hw
          rcases List.mem_append.mp hs with hs | hs
          · exact noDot_extractPat pat hw1 s hs
          · exact noDot_extractExpr e hw2 s hs
  | itemS =>
      intro s hs
      rw [extract_variables_from_stmt] at hs
      simp at hs
  | exprS e =>
      intro s hs
      rw [extract_variables_from_stmt] at hs
      rw [wfStmt] at hw
      exact noDot_extractExpr e hw s hs
  | macroStmt =>
      intro s hs
      rw [extract_variables_from_stmt] at hs
      simp at hs

theorem noDot_extractStmtList (sts : List SynStmt) (hw : wfStmtList sts = true) :
    ∀ s ∈ extractStmtList sts, noDot s = true := by
  cases sts with
  | nil =>
      intro s hs
      rw [extractStmtList] at hs
      simp at hs
  | cons st t =>
      intro s hs
      rw [extractStmtList] at hs
      rw [wfStmtList] at hw
      obtain ⟨hw1, hw2⟩ := Bool.and_eq_true_iff.mp hw
      rcases List.mem_append.mp hs with hs | hs
      · exact noDot_extractStmt st hw1 s hs
      · exact noDot_extractStmtList t hw2 s hs

theorem noDot_extractPat (p : SynPat) (hw : wfPat p = true) :
    ∀ s ∈ extract_variables_from_pat p, noDot s = true := by
  cases p with
  | identP name =>
      intro s hs
      rw [extract_variables_from_pat] at hs
      rw [wfPat] at hw
      simp only [List.mem_singleton] at hs
      subst hs
      exact hw
  | structP fieldPats =>
      intro s hs
      rw [extract_variables_from_pat] at hs
      rw [wfPat] at hw
      exact noDot_extractPatList fieldPats hw s hs
  | tupleP elems =>
      intro s hs
      rw [extract_variables_from_pat] at hs
      rw [wfPat] at hw
      exact noDot_extractPatList elems hw s hs
  | tupleStructP elems =>
      intro s hs
      rw [extract_variables_from_pat] at hs
      rw [wfPat] at hw
      exact noDot_extractPatList elems hw s hs
  | referenceP inner =>
      intro s hs
      rw [extract_variables_from_pat] at hs
      rw [wfPat] at hw
      exact noDot_extractPat inner hw s hs
  | otherPat =>
      intro s hs
      rw [extract_variables_from_pat] at hs
      simp at hs

theorem noDot_extractPatList (ps : List SynPat) (hw : wfPatList ps = true) :
    ∀ s ∈ extractPatList ps, noDot s = true := by
  cases ps with
  | nil =>
      intro s hs
      rw [extractPatList] at hs
      simp at hs
  | cons p t =>
      intro s hs
      rw [extractPatList] at hs
      rw [wfPatList] at hw
      obtain ⟨hw1, hw2⟩ := Bool.and_eq_true_iff.mp hw
      rcases List.mem_append.mp hs with hs | hs
      · exact noDot_extractPat p hw1 s hs
      · exact noDot_extractPatList t hw2 s hs

end

/-- The usage set of an impl block holds only `.`-free identifiers. -/
theorem noDot_find_variable_usage (items : List SynImplItem)
    (hw : wfImplItems items = true) :
    ∀ s ∈ find_variable_usage items, noDot s = true := by
  intro s hs
  rw [find_variable_usage] at hs
  rw [List.mem_flatMap] at hs
  obtain ⟨item, hi, hs⟩ := hs
  have hwi := (List.all_eq_true.mp hw) item hi
  cases item with
  | fnItem stmts =>
      exact noDot_extractStmtList stmts (by simpa using hwi) s hs
  | otherImplItem => cases hs

/-- On a `.`-free usage set the qualified-access branch of
`is_variable_used` never fires. -/
theorem qualifiedSelfHit_eq_false (used : List Str) (var_name : Str)
    (h : ∀ u ∈ used, noDot u = true) :
    UnusedStateVariablesRuleSyn.qualifiedSelfHit var_name used = false := by
  rw [UnusedStateVariablesRuleSyn.qualifiedSelfHit]
  rw [List.any_eq_false]
  intro u hu
  have hnd : u.contains '.' = false := by
    have := h u hu
    rw [noDot] at this
    simpa using this
  have hnotmem : '.' ∉ u := by
    intro hm
    simp [List.contains] at hnd
    exact hnd hm
  simp only [Bool.or_eq_true, not_or]
  constructor
  · intro hc
    exact hnotmem (containsStr_subset _ _ hc '.'
      (List.mem_append.mpr (Or.inl (by decide))))
  · intro hc
    exact hnotmem (containsStr_subset _ _ hc '.'
      (List.mem_append.mpr (Or.inl (by decide))))

/-- C9: every string inserted into the usage set by the syntax-tree
traversal is a bare identifier with no `.` character (given `syn`'s
lexical guarantee on identifiers, expressed as `wf*`); consequently the
qualified-access (`self.F` / `self?.F`) substring branch of
`is_variable_used` never fires, and `is_variable_used` coincides with
plain membership in the usage set. -/
theorem usage_set_bare_identifiers :
    (∀ (items : List SynImplItem), wfImplItems items = true →
        ∀ s ∈ find_variable_usage items, noDot s = true) ∧
    (∀ (used : List Str) (var_name : Str),
        (∀ u ∈ used, noDot u = true) →
        UnusedStateVariablesRuleSyn.qualifiedSelfHit var_name used = false ∧
        UnusedStateVariablesRuleSyn.is_variable_used var_name used =
          used.contains var_name) ∧
    (∀ (items : List SynImplItem) (var_name : Str),
        wfImplItems items = true →
        UnusedStateVariablesRuleSyn.is_variable_used var_name
            (find_variable_usage items) =
          (find_variable_usage items).contains var_name) := by
  refine ⟨noDot_find_variable_usage, ?_, ?_⟩
  · intro used var_name h
    have hq := qualifiedSelfHit_eq_false used var_name h
    refine ⟨hq, ?_⟩
    rw [UnusedStateVariablesRuleSyn.is_variable_used, hq, Bool.or_false]
  · intro items var_name hw
    have hq := qualifiedSelfHit_eq_false (find_variable_usage items) var_name
      (noDot_find_variable_usage items hw)
    rw [UnusedStateVariablesRuleSyn.is_variable_used, hq, Bool.or_false]

/-- C9 (witness): on the concrete impl block whose method body is
`self.counter`, well-formedness is discharged by evaluation and the
equivalence with plain membership follows from the theorem. -/
theorem usage_set_bare_identifiers_witness :
    UnusedStateVariablesRuleSyn.is_variable_used "counter".data
        (find_variable_usage exampleImplItems) =
      (find_variable_usage exampleImplItems).contains "counter".data ∧
    (find_variable_usage exampleImplItems).contains "counter".data = true := by
  refine ⟨usage_set_bare_identifiers.2.2 exampleImplItems "counter".data
    (by decide), by decide⟩

/-! ## C6 — nesting-aware top-level split -/

/-- The reference splitter never returns an empty segment list. -/
theorem segsRef_ne_nil (d : Char) (cs : Str) (p b br : Int) :
    segsRef d cs p b br ≠ [] := by
  cases cs with
  | nil => simp [segsRef]
  | cons ch rest =>
      rw [segsRef]
      generalize (if ch = '(' then p + 1 else if ch = ')' then p - 1 else p) = p'
      generalize (if ch = '[' then b + 1 else if ch = ']' then b - 1 else b) = b'
      generalize (if ch = '{' then br + 1 else if ch = '}' then br - 1 else br) = br'
      split
      · exact List.cons_ne_nil _ _
      · split
        · exact List.cons_ne_nil _ _
        · exact List.cons_ne_nil _ _

/-- `sppGo` is `segsRef` with the accumulated prefix attached to the first
raw segment and the source's push policy applied. -/
theorem sppGo_eq_segsRef (d : Char) (cs : Str) :
    ∀ (p b br : Int) (cur : Str),
      SorobanParser.sppGo d cs p b br cur =
        finalizeSegs (consFirst cur (segsRef d cs p b br)) := by
  induction cs with
  | nil =>
      intro p b br cur
      rw [SorobanParser.sppGo, segsRef]
      rw [consFirst]
      rw [finalizeSegs]
      simp
  | cons ch rest ih =>
      intro p b br cur
      rw [SorobanParser.sppGo, segsRef]
      generalize (if ch = '(' then p + 1 else if ch = ')' then p - 1 else p) = p'
      generalize (if ch = '[' then b + 1 else if ch = ']' then b - 1 else b) = b'
      generalize (if ch = '{' then br + 1 else if ch = '}' then br - 1 else br) = br'
      have hne := segsRef_ne_nil d rest p' b' br'
      split
      · rw [ih]
        cases hsg : segsRef d rest p' b' br' with
        | nil => exact absurd hsg hne
        | cons s ss =>
            simp [consFirst, finalizeSegs]
      · rw [ih]
        cases hsg : segsRef d rest p' b' br' with
        | nil => exact absurd hsg hne
        | cons s ss =>
            simp [consFirst, List.append_assoc]

/-- The head of a `dropWhile` result does not satisfy the predicate. -/
theorem not_head_dropWhile (p : Char → Bool) (l : List Char) (a : Char)
    (t : List Char) (h : l.dropWhile p = a :: t) : p a = false := by
  induction l with
  | nil => simp at h
  | cons x xs ih =>
      rw [List.dropWhile_cons] at h
      split at h
      · exact ih h
      · next hx =>
          injection h with h1 _
          subst h1
          simpa using hx

/-- Rust `trim` is idempotent. -/
theorem trim_idem (s : Str) : RustStr.trim (RustStr.trim s) = RustStr.trim s := by
  unfold RustStr.trim
  set A := s.dropWhile Char.isWhitespace with hA
  set B := A.reverse.dropWhile Char.isWhitespace with hB
  have h1 : B.reverse.dropWhile Char.isWhitespace = B.reverse := by
    cases hBr : B.reverse with
    | nil => simp
    | cons a t =>
        have hsuf : B <:+ A.reverse := List.dropWhile_suffix _
        have hpre : B.reverse <+: A := by
          have h' := hsuf.reverse
          simpa using h'
        obtain ⟨u, hu⟩ := hpre
        rw [hBr] at hu
        have hAe : s.dropWhile Char.isWhitespace = a :: (t ++ u) := by
          rw [← hA, ← hu]
          simp
        have hpa := not_head_dropWhile Char.isWhitespace s a (t ++ u) hAe
        rw [List.dropWhile_cons_of_neg (by simp [hpa])]
  rw [h1, List.reverse_reverse, hB, List.dropWhile_idempotent]

/-- C6 (counterexample): on `a,,b` split at `,`, the interior segment
between the two delimiters is empty after trimming yet is kept, so the
claim's "drops segments that are empty after trimming" fails. -/
theorem split_keeps_interior_empty_segment :
    ([] : Str) ∈ SorobanParser.split_preserving_parentheses "a,,b".data ',' ∧
    SorobanParser.split_preserving_parentheses "a,,b".data ',' =
      ["a".data, ([] : Str), "b".data] := by
  decide

/-- C6 (amended): `split_preserving_parentheses` equals the reference
splitter that cuts **exactly** at delimiter occurrences where all three
nesting counters of the consumed prefix are zero (so it never splits at a
delimiter inside nested parentheses, brackets or braces), with every
segment trimmed; only the **final** segment is dropped when empty after
trimming — interior empty segments are kept.  Every returned segment is
trimmed (fixed under `trim`). -/
theorem split_preserving_parentheses_spec (text : Str) (delimiter : Char) :
    SorobanParser.split_preserving_parentheses text delimiter =
      finalizeSegs (segsRef delimiter text 0 0 0) ∧
    ∀ s ∈ SorobanParser.split_preserving_parentheses text delimiter,
      s = RustStr.trim s := by
  have he : SorobanParser.split_preserving_parentheses text delimiter =
      finalizeSegs (segsRef delimiter text 0 0 0) := by
    rw [SorobanParser.split_preserving_parentheses, sppGo_eq_segsRef]
    cases hsg : segsRef delimiter text 0 0 0 with
    | nil => exact absurd hsg (segsRef_ne_nil _ _ _ _ _)
    | cons s ss =>
        rw [consFirst]
        simp
  refine ⟨he, ?_⟩
  intro s hs
  rw [he] at hs
  rw [finalizeSegs] at hs
  rcases List.mem_append.mp hs with hs | hs
  · rw [List.mem_map] at hs
    obtain ⟨raw, -, hsr⟩ := hs
    rw [← hsr]
    exact (trim_idem raw).symm
  · split at hs
    · split at hs
      · cases hs
      · next =>
          simp only [List.mem_singleton] at hs
          subst hs
          exact (trim_idem _).symm
    · cases hs

/-- C6 (witness): the amended theorem applied at `a,(b,c)` split on `,`,
discharging the membership hypothesis at the segment `a`. -/
theorem split_preserving_parentheses_spec_witness :
    SorobanParser.split_preserving_parentheses "a,(b,c)".data ',' =
      finalizeSegs (segsRef ',' "a,(b,c)".data 0 0 0) ∧
    "a".data = RustStr.trim "a".data :=
  ⟨(split_preserving_parentheses_spec "a,(b,c)".data ',').1,
   (split_preserving_parentheses_spec "a,(b,c)".data ',').2 "a".data (by decide)⟩

/-! ## C1 / C7 / C8 — rule-id bookkeeping for the analyzer pipeline -/

/-- Filter by a rule id drops a chunk carrying only other ids. -/
theorem filter_ruleName_nil {l : List RuleViolation} {t : Str}
    (h : ∀ v ∈ l, v.rule_name ≠ t) :
    l.filter (fun v => v.rule_name = t) = [] :=
  List.filter_eq_nil_iff.mpr (by intro v hv; simpa using h v hv)

/-- Filter by a rule id keeps a chunk carrying only that id. -/
theorem filter_ruleName_self {l : List RuleViolation} {t : Str}
    (h : ∀ v ∈ l, v.rule_name = t) :
    l.filter (fun v => v.rule_name = t) = l :=
  List.filter_eq_self.mpr (by intro v hv; simpa using h v hv)

/-- A conditional `filterMap` is a `map` over a `filter`. -/
theorem filterMap_ite {α β : Type} (q : α → Prop) [DecidablePred q]
    (g : α → β) (l : List α) :
    (l.filterMap fun a => if q a then some (g a) else none) =
      (l.filter fun a => q a).map g := by
  induction l with
  | nil => rfl
  | cons a t ih =>
      by_cases h : q a
      · rw [List.filterMap_cons, List.filter_cons]
        simp [h, ih]
      · rw [List.filterMap_cons, List.filter_cons]
        simp [h, ih]

theorem ruleName_mem_unused (ct : SorobanStruct) (src : Str) (v : RuleViolation)
    (h : v ∈ SorobanAnalyzer.check_unused_state_variables ct src) :
    v.rule_name = "unused-state-variable".data := by
  rw [SorobanAnalyzer.check_unused_state_variables] at h
  rw [List.mem_filterMap] at h
  obtain ⟨f, -, hf⟩ := h
  split at hf
  · injection hf with hf
    subst hf
    rfl
  · cases hf

theorem ruleName_mem_ineff (ct : SorobanStruct) (v : RuleViolation)
    (h : v ∈ SorobanAnalyzer.check_inefficient_field_types ct) :
    v.rule_name = "inefficient-integer-type".data ∨
      v.rule_name = "string-instead-of-symbol".data := by
  rw [SorobanAnalyzer.check_inefficient_field_types] at h
  rw [List.mem_flatMap] at h
  obtain ⟨f, -, hf⟩ := h
  rcases List.mem_append.mp hf with hf | hf <;> split at hf
  · simp only [List.mem_singleton] at hf
    subst hf
    left
    rfl
  · cases hf
  · simp only [List.mem_singleton] at hf
    subst hf
    right
    rfl
  · cases hf

theorem ruleName_mem_pub (ct : SorobanStruct) (v : RuleViolation)
    (h : v ∈ SorobanAnalyzer.check_missing_pub_fields ct) :
    v.rule_name = "private-contract-field".data := by
  rw [SorobanAnalyzer.check_missing_pub_fields] at h
  rw [List.mem_filterMap] at h
  obtain ⟨f, -, hf⟩ := h
  split at hf
  · injection hf with hf
    subst hf
    rfl
  · cases hf

theorem ruleName_mem_expensive (fn : SorobanFunction) (src : Str)
    (v : RuleViolation)
    (h : v ∈ SorobanAnalyzer.check_expensive_operations fn src) :
    v.rule_name = "expensive-string-operation".data ∨
      v.rule_name = "vec-without-capacity".data ∨
      v.rule_name = "unnecessary-clone".data := by
  rw [SorobanAnalyzer.check_expensive_operations] at h
  rcases List.mem_append.mp h with h | h
  · rcases List.mem_append.mp h with h | h <;> split at h
    · simp only [List.mem_singleton] at h
      subst h
      exact Or.inl rfl
    · cases h
    · simp only [List.mem_singleton] at h
      subst h
      exact Or.inr (Or.inl rfl)
    · cases h
  · split at h
    · simp only [List.mem_singleton] at h
      subst h
      exact Or.inr (Or.inr rfl)
    · cases h

theorem ruleName_mem_paramval (fn : SorobanFunction) (v : RuleViolation)
    (h : v ∈ SorobanAnalyzer.check_parameter_validation fn) :
    v.rule_name = "missing-address-validation".data := by
  rw [SorobanAnalyzer.check_parameter_validation] at h
  rw [List.mem_filterMap] at h
  obtain ⟨p, -, hp⟩ := h
  split at hp
  · injection hp with hp
    subst hp
    rfl
  · cases hp

theorem ruleName_mem_retval (fn : SorobanFunction) (v : RuleViolation)
    (h : v ∈ SorobanAnalyzer.check_return_values fn) :
    v.rule_name = "missing-error-handling".data := by
  rw [SorobanAnalyzer.check_return_values] at h
  split at h
  · simp only [List.mem_singleton] at h
    subst h
    rfl
  · cases h

theorem ruleName_mem_unbounded (imp : SorobanImpl) (src : Str)
    (v : RuleViolation)
    (h : v ∈ SorobanAnalyzer.check_unbounded_loops imp src) :
    v.rule_name = "unbounded-loop".data := by
  rw [SorobanAnalyzer.check_unbounded_loops] at h
  rw [List.mem_filterMap] at h
  obtain ⟨f, -, hf⟩ := h
  split at hf
  · injection hf with hf
    subst hf
    rfl
  · cases hf

theorem ruleName_mem_storage (imp : SorobanImpl) (src : Str)
    (v : RuleViolation)
    (h : v ∈ SorobanAnalyzer.check_storage_patterns imp src) :
    v.rule_name = "inefficient-storage-access".data := by
  rw [SorobanAnalyzer.check_storage_patterns] at h
  rw [List.mem_filterMap] at h
  obtain ⟨f, -, hf⟩ := h
  split at hf
  · injection hf with hf
    subst hf
    rfl
  · cases hf

theorem ruleName_mem_structure (c : SorobanContract) (v : RuleViolation)
    (h : v ∈ SorobanAnalyzer.analyze_contract_structure c) :
    v.rule_name = "missing-constructor".data ∨
      v.rule_name = "missing-admin-pattern".data := by
  rw [SorobanAnalyzer.analyze_contract_structure] at h
  rcases List.mem_append.mp h with hf | hf <;> split at hf
  · simp only [List.mem_singleton] at hf
    subst hf
    left
    rfl
  · cases hf
  · simp only [List.mem_singleton] at hf
    subst hf
    right
    rfl
  · cases hf

theorem ruleName_mem_analyze_function (fn : SorobanFunction) (src : Str)
    (v : RuleViolation)
    (h : v ∈ SorobanAnalyzer.analyze_function fn src) :
    v.rule_name = "expensive-string-operation".data ∨
      v.rule_name = "vec-without-capacity".data ∨
      v.rule_name = "unnecessary-clone".data ∨
      v.rule_name = "missing-address-validation".data ∨
      v.rule_name = "missing-error-handling".data := by
  rw [SorobanAnalyzer.analyze_function] at h
  rcases List.mem_append.mp h with h | h
  · rcases List.mem_append.mp h with h | h
    · have h3 := ruleName_mem_expensive fn src v h
      tauto
    · have h3 := ruleName_mem_paramval fn v h
      tauto
  · have h3 := ruleName_mem_retval fn v h
    tauto

theorem ruleName_mem_analyze_implementation (imp : SorobanImpl) (src : Str)
    (v : RuleViolation)
    (h : v ∈ SorobanAnalyzer.analyze_implementation imp src) :
    v.rule_name = "expensive-string-operation".data ∨
      v.rule_name = "vec-without-capacity".data ∨
      v.rule_name = "unnecessary-clone".data ∨
      v.rule_name = "missing-address-validation".data ∨
      v.rule_name = "missing-error-handling".data ∨
      v.rule_name = "unbounded-loop".data ∨
      v.rule_name = "inefficient-storage-access".data := by
  rw [SorobanAnalyzer.analyze_implementation] at h
  rcases List.mem_append.mp h with h | h
  · rcases List.mem_append.mp h with h | h
    · rw [List.mem_flatMap] at h
      obtain ⟨fn, -, h⟩ := h
      have h3 := ruleName_mem_analyze_function fn src v h
      tauto
    · have h3 := ruleName_mem_unbounded imp src v h
      tauto
  · have h3 := ruleName_mem_storage imp src v h
    tauto

theorem ruleName_mem_ruleApply (rid : SorobanRuleId) (c : SorobanContract)
    (v : RuleViolation) (h : v ∈ sorobanRuleApply rid c) :
    v.rule_name = sorobanRuleIdStr rid := by
  cases rid with
  | unusedStateVariables =>
      rw [sorobanRuleApply, SorobanRules.unusedStateVariablesApply] at h
      rw [List.mem_flatMap] at h
      obtain ⟨ct, -, h⟩ := h
      rw [List.mem_filterMap] at h
      obtain ⟨f, -, hf⟩ := h
      split at hf
      · injection hf with hf
        subst hf
        rfl
      · cases hf
  | inefficientStorageAccess =>
      rw [sorobanRuleApply, SorobanRules.inefficientStorageAccessApply] at h
      rw [List.mem_flatMap] at h
      obtain ⟨imp, -, h⟩ := h
      rw [List.mem_filterMap] at h
      obtain ⟨f, -, hf⟩ := h
      split at hf
      · injection hf with hf
        subst hf
        rfl
      · cases hf
  | unboundedLoop =>
      rw [sorobanRuleApply, SorobanRules.unboundedLoopApply] at h
      rw [List.mem_flatMap] at h
      obtain ⟨imp, -, h⟩ := h
      rw [List.mem_filterMap] at h
      obtain ⟨f, -, hf⟩ := h
      split at hf
      · injection hf with hf
        subst hf
        rfl
      · cases hf
  | expensiveStringOperations =>
      rw [sorobanRuleApply, SorobanRules.expensiveStringOperationsApply] at h
      rw [List.mem_flatMap] at h
      obtain ⟨imp, -, h⟩ := h
      rw [List.mem_filterMap] at h
      obtain ⟨f, -, hf⟩ := h
      split at hf
      · injection hf with hf
        subst hf
        rfl
      · cases hf
  | missingConstructor =>
      rw [sorobanRuleApply, SorobanRules.missingConstructorApply] at h
      split at h
      · simp only [List.mem_singleton] at h
        subst h
        rfl
      · cases h
  | adminPattern =>
      rw [sorobanRuleApply, SorobanRules.adminPatternApply] at h
      split at h
      · simp only [List.mem_singleton] at h
        subst h
        rfl
      · cases h
  | inefficientIntegerTypes =>
      rw [sorobanRuleApply, SorobanRules.inefficientIntegerTypesApply] at h
      rw [List.mem_flatMap] at h
      obtain ⟨ct, -, h⟩ := h
      rw [List.mem_filterMap] at h
      obtain ⟨f, -, hf⟩ := h
      split at hf
      · injection hf with hf
        subst hf
        rfl
      · cases hf
  | missingErrorHandling =>
      rw [sorobanRuleApply, SorobanRules.missingErrorHandlingApply] at h
      rw [List.mem_flatMap] at h
      obtain ⟨imp, -, h⟩ := h
      rw [List.mem_filterMap] at h
      obtain ⟨f, -, hf⟩ := h
      split at hf
      · injection hf with hf
        subst hf
        rfl
      · cases hf

/-- No default rule's id collides with an analyzer rule id used below. -/
theorem sorobanRuleIdStr_ne (rid : SorobanRuleId) :
    sorobanRuleIdStr rid ≠ "unused-state-variable".data ∧
    sorobanRuleIdStr rid ≠ "inefficient-storage-access".data ∧
    sorobanRuleIdStr rid ≠ "missing-error-handling".data := by
  cases rid <;> exact ⟨by decide, by decide, by decide⟩

/-- The rules phase contributes no violation carrying any of the three
analyzer ids considered by the claims. -/
theorem filter_rulesPhase_nil (rulesIter : List (SorobanRuleId × Bool))
    (c : SorobanContract) (t : Str)
    (ht : ∀ rid : SorobanRuleId, sorobanRuleIdStr rid ≠ t) :
    (rulesIter.flatMap fun r =>
        if r.2 then sorobanRuleApply r.1 c else []).filter
      (fun v => v.rule_name = t) = [] := by
  apply filter_ruleName_nil
  intro v hv
  rw [List.mem_flatMap] at hv
  obtain ⟨r, -, hv⟩ := hv
  split at hv
  · rw [ruleName_mem_ruleApply r.1 c v hv]
    exact ht r.1
  · cases hv

theorem ruleName_mem_act (ct : SorobanStruct) (src : Str) (v : RuleViolation)
    (h : v ∈ SorobanAnalyzer.analyze_contract_type ct src) :
    v.rule_name = "unused-state-variable".data ∨
      v.rule_name = "inefficient-integer-type".data ∨
      v.rule_name = "string-instead-of-symbol".data ∨
      v.rule_name = "private-contract-field".data := by
  rw [SorobanAnalyzer.analyze_contract_type] at h
  rcases List.mem_append.mp h with h | h
  · rcases List.mem_append.mp h with h | h
    · exact Or.inl (ruleName_mem_unused ct src v h)
    · rcases ruleName_mem_ineff ct v h with h | h
      · exact Or.inr (Or.inl h)
      · exact Or.inr (Or.inr (Or.inl h))
  · exact Or.inr (Or.inr (Or.inr (ruleName_mem_pub ct v h)))

/-- Violations with rule id `unused-state-variable` in the full analyzer
output are exactly the unused-state-variable check's output. -/
theorem filter_analyze_unused (c : SorobanContract) :
    (SorobanAnalyzer.analyze_contract c).filter
        (fun v => v.rule_name = "unused-state-variable".data) =
      c.contract_types.flatMap
        (fun ct => SorobanAnalyzer.check_unused_state_variables ct c.source) := by
  rw [SorobanAnalyzer.analyze_contract]
  rw [List.filter_append, List.filter_append]
  rw [List.filter_flatMap, List.filter_flatMap]
  have h1 : ∀ ct : SorobanStruct,
      (SorobanAnalyzer.analyze_contract_type ct c.source).filter
          (fun v => v.rule_name = "unused-state-variable".data) =
        SorobanAnalyzer.check_unused_state_variables ct c.source := by
    intro ct
    rw [SorobanAnalyzer.analyze_contract_type]
    rw [List.filter_append, List.filter_append]
    rw [filter_ruleName_self (ruleName_mem_unused ct c.source)]
    rw [filter_ruleName_nil (fun v hv => by
      rcases ruleName_mem_ineff ct v hv with h | h <;> rw [h] <;> decide)]
    rw [filter_ruleName_nil (fun v hv => by
      rw [ruleName_mem_pub ct v hv]; decide)]
    simp
  have h2 : ∀ imp : SorobanImpl,
      (SorobanAnalyzer.analyze_implementation imp c.source).filter
          (fun v => v.rule_name = "unused-state-variable".data) = [] := by
    intro imp
    apply filter_ruleName_nil
    intro v hv
    rcases ruleName_mem_analyze_implementation imp c.source v hv with
      h | h | h | h | h | h | h <;> rw [h] <;> decide
  have h3 : (SorobanAnalyzer.analyze_contract_structure c).filter
      (fun v => v.rule_name = "unused-state-variable".data) = [] := by
    apply filter_ruleName_nil
    intro v hv
    rcases ruleName_mem_structure c v hv with h | h <;> rw [h] <;> decide
  rw [h3]
  simp only [h1, h2]
  simp

/-- C1: in the full Soroban pipeline (analyzer plus every enabled rule in
any iteration order), the violations whose ruleId is
`unused-state-variable` are exactly one Warning per contract field whose
name occurs at most once in the full source text, in field order, with
`subjectName` equal to the field name; and every such violation's subject
has at most one occurrence — so a field occurring twice or more is never
reported. -/
theorem unused_state_variable_reporting
    (rulesIter : List (SorobanRuleId × Bool)) (c : SorobanContract) :
    ((SorobanRuleEngine.applyRules rulesIter c).filter
        (fun v => v.rule_name = "unused-state-variable".data)) =
      c.contract_types.flatMap (fun ct =>
        (ct.fields.filter
            (fun f => RustStr.matchesCount c.source f.name ≤ 1)).map
          SorobanAnalyzer.unusedStateViolation) ∧
    (∀ v ∈ SorobanRuleEngine.applyRules rulesIter c,
      v.rule_name = "unused-state-variable".data →
        RustStr.matchesCount c.source v.variable_name ≤ 1 ∧
        v.severity = ViolationSeverity.Warning) := by
  have hfe : (SorobanRuleEngine.applyRules rulesIter c).filter
      (fun v => v.rule_name = "unused-state-variable".data) =
      c.contract_types.flatMap
        (fun ct => SorobanAnalyzer.check_unused_state_variables ct c.source) := by
    rw [SorobanRuleEngine.applyRules, List.filter_append, filter_analyze_unused,
      filter_rulesPhase_nil rulesIter c _
        (fun rid => (sorobanRuleIdStr_ne rid).1)]
    simp
  constructor
  · rw [hfe]
    simp only [SorobanAnalyzer.check_unused_state_variables, filterMap_ite]
  · intro v hv hrule
    have hvf : v ∈ (SorobanRuleEngine.applyRules rulesIter c).filter
        (fun v => v.rule_name = "unused-state-variable".data) :=
      List.mem_filter.mpr ⟨hv, by simpa using hrule⟩
    rw [hfe] at hvf
    rw [List.mem_flatMap] at hvf
    obtain ⟨ct, -, hvf⟩ := hvf
    rw [SorobanAnalyzer.check_unused_state_variables, List.mem_filterMap] at hvf
    obtain ⟨f, -, hf⟩ := hvf
    split at hf
    · next hcond =>
        injection hf with hf
        subst hf
        exact ⟨hcond, rfl⟩
    · cases hf

/-- C1 (witness): on the concrete contract whose field `omega` occurs once
in the source, the theorem applies to the emitted violation (membership
discharged by evaluation of the full pipeline). -/
theorem unused_state_variable_reporting_witness :
    RustStr.matchesCount exampleContractA.source
        (SorobanAnalyzer.unusedStateViolation omegaField).variable_name ≤ 1 ∧
    (SorobanAnalyzer.unusedStateViolation omegaField).severity =
      ViolationSeverity.Warning :=
  (unused_state_variable_reporting sorobanDefaultRules exampleContractA).2
    (SorobanAnalyzer.unusedStateViolation omegaField) (by decide) (by decide)

/-- A conditional singleton `flatMap` is a `map` over a `filter`. -/
theorem flatMap_ite {α β : Type} (q : α → Prop) [DecidablePred q]
    (g : α → β) (l : List α) :
    (l.flatMap fun a => if q a then [g a] else []) =
      (l.filter fun a => q a).map g := by
  induction l with
  | nil => rfl
  | cons a t ih =>
      by_cases h : q a
      · rw [List.flatMap_cons, List.filter_cons]
        simp [h, ih]
      · rw [List.flatMap_cons, List.filter_cons]
        simp [h, ih]

/-! ## C7 — inefficient-storage-access thresholds -/

/-- C7 (counterexample): the contract whose only function performs three
`.get(` calls receives an `inefficient-storage-access` violation although
its storage-read/write marker count is 3, which does not exceed 3 — the
analyzer's threshold is `> 2` on `.get(`/`.load(` counts, not `> 3`. -/
theorem storage_access_threshold_counterexample :
    ((SorobanAnalyzer.analyze_contract threeGetsContract).filter
        (fun v => v.rule_name = "inefficient-storage-access".data)).length = 1 ∧
    SorobanRules.storageOpsCount probeFunction = 3 ∧
    ¬ (SorobanRules.storageOpsCount probeFunction > 3) := by
  refine ⟨by decide, by decide, by decide⟩

/-- Violations with rule id `inefficient-storage-access` in the full
analyzer output are exactly the storage-pattern check's output. -/
theorem filter_analyze_storage (c : SorobanContract) :
    (SorobanAnalyzer.analyze_contract c).filter
        (fun v => v.rule_name = "inefficient-storage-access".data) =
      c.implementations.flatMap
        (fun imp => SorobanAnalyzer.check_storage_patterns imp c.source) := by
  rw [SorobanAnalyzer.analyze_contract]
  rw [List.filter_append, List.filter_append]
  rw [List.filter_flatMap, List.filter_flatMap]
  have h1 : ∀ ct : SorobanStruct,
      (SorobanAnalyzer.analyze_contract_type ct c.source).filter
          (fun v => v.rule_name = "inefficient-storage-access".data) = [] := by
    intro ct
    apply filter_ruleName_nil
    intro v hv
    rcases ruleName_mem_act ct c.source v hv with h | h | h | h <;>
      rw [h] <;> decide
  have h2 : ∀ imp : SorobanImpl,
      (SorobanAnalyzer.analyze_implementation imp c.source).filter
          (fun v => v.rule_name = "inefficient-storage-access".data) =
        SorobanAnalyzer.check_storage_patterns imp c.source := by
    intro imp
    have hfn : (imp.functions.flatMap
        (fun f => SorobanAnalyzer.analyze_function f c.source)).filter
        (fun v => v.rule_name = "inefficient-storage-access".data) = [] := by
      apply filter_ruleName_nil
      intro v hv
      rw [List.mem_flatMap] at hv
      obtain ⟨fn, -, hv⟩ := hv
      rcases ruleName_mem_analyze_function fn c.source v hv with
        h | h | h | h | h <;> rw [h] <;> decide
    have hun : (SorobanAnalyzer.check_unbounded_loops imp c.source).filter
        (fun v => v.rule_name = "inefficient-storage-access".data) = [] :=
      filter_ruleName_nil (fun v hv => by
        rw [ruleName_mem_unbounded imp c.source v hv]; decide)
    rw [SorobanAnalyzer.analyze_implementation]
    rw [List.filter_append, List.filter_append, hfn, hun,
      filter_ruleName_self (ruleName_mem_storage imp c.source)]
    simp
  have h3 : (SorobanAnalyzer.analyze_contract_structure c).filter
      (fun v => v.rule_name = "inefficient-storage-access".data) = [] := by
    apply filter_ruleName_nil
    intro v hv
    rcases ruleName_mem_structure c v hv with h | h <;> rw [h] <;> decide
  rw [h3]
  simp only [h1, h2]
  simp

/-- C7 (amended): in the full pipeline, a violation with ruleId
`inefficient-storage-access` is emitted for a function exactly when its
count of read markers `.get(` plus `.load(` exceeds **2** (the analyzer's
`check_storage_patterns`); separately, the rule registered as
`soroban-inefficient-storage` fires exactly when the count of all four
markers `.get(`, `.set(`, `.load(`, `.store(` exceeds 3. -/
theorem inefficient_storage_access_spec
    (rulesIter : List (SorobanRuleId × Bool)) (c : SorobanContract) :
    (SorobanRuleEngine.applyRules rulesIter c).filter
        (fun v => v.rule_name = "inefficient-storage-access".data) =
      c.implementations.flatMap (fun imp =>
        (imp.functions.filter
            (fun f => SorobanAnalyzer.storageReadCount f > 2)).map
          SorobanAnalyzer.storagePatternViolation) ∧
    sorobanRuleApply SorobanRuleId.inefficientStorageAccess c =
      c.implementations.flatMap (fun imp =>
        (imp.functions.filter
            (fun f => SorobanRules.storageOpsCount f > 3)).map
          SorobanRules.storageOpsViolation) := by
  constructor
  · rw [SorobanRuleEngine.applyRules, List.filter_append, filter_analyze_storage,
      filter_rulesPhase_nil rulesIter c _
        (fun rid => (sorobanRuleIdStr_ne rid).2.1)]
    simp only [SorobanAnalyzer.check_storage_patterns, filterMap_ite]
    simp
  · rw [sorobanRuleApply, SorobanRules.inefficientStorageAccessApply]
    simp only [filterMap_ite]

/-! ## C8 — missing-error-handling trigger set -/

/-- C8 (counterexample): the function `set_admin` has a name containing
`set` and no return type, yet no violation with ruleId
`missing-error-handling` is emitted — the analyzer's `check_return_values`
tests only `transfer`/`mint`/`burn` (the `set`-sensitive rule emits the
distinct id `soroban-missing-error-handling`). -/
theorem missing_error_handling_set_counterexample :
    ((SorobanRuleEngine.applyRules sorobanDefaultRules setAdminContract).filter
        (fun v => v.rule_name = "missing-error-handling".data)) = [] ∧
    RustStr.containsStr setAdminFunction.name "set".data = true ∧
    setAdminFunction.return_type = none ∧
    ((SorobanRuleEngine.applyRules sorobanDefaultRules setAdminContract).filter
        (fun v => v.rule_name = "soroban-missing-error-handling".data)).length
      = 1 := by
  refine ⟨by decide, by decide, by decide, by decide⟩

/-- Violations with rule id `missing-error-handling` in the full analyzer
output are exactly the return-value check's output. -/
theorem filter_analyze_errhandling (c : SorobanContract) :
    (SorobanAnalyzer.analyze_contract c).filter
        (fun v => v.rule_name = "missing-error-handling".data) =
      c.implementations.flatMap
        (fun imp => imp.functions.flatMap
          (fun fn => SorobanAnalyzer.check_return_values fn)) := by
  rw [SorobanAnalyzer.analyze_contract]
  rw [List.filter_append, List.filter_append]
  rw [List.filter_flatMap, List.filter_flatMap]
  have h1 : ∀ ct : SorobanStruct,
      (SorobanAnalyzer.analyze_contract_type ct c.source).filter
          (fun v => v.rule_name = "missing-error-handling".data) = [] := by
    intro ct
    apply filter_ruleName_nil
    intro v hv
    rcases ruleName_mem_act ct c.source v hv with h | h | h | h <;>
      rw [h] <;> decide
  have h2 : ∀ imp : SorobanImpl,
      (SorobanAnalyzer.analyze_implementation imp c.source).filter
          (fun v => v.rule_name = "missing-error-handling".data) =
        imp.functions.flatMap
          (fun fn => SorobanAnalyzer.check_return_values fn) := by
    intro imp
    have hfn : ∀ fn : SorobanFunction,
        (SorobanAnalyzer.analyze_function fn c.source).filter
            (fun v => v.rule_name = "missing-error-handling".data) =
          SorobanAnalyzer.check_return_values fn := by
      intro fn
      have hexp : (SorobanAnalyzer.check_expensive_operations fn c.source).filter
          (fun v => v.rule_name = "missing-error-handling".data) = [] :=
        filter_ruleName_nil (fun v hv => by
          rcases ruleName_mem_expensive fn c.source v hv with h | h | h <;>
            rw [h] <;> decide)
      have hpar : (SorobanAnalyzer.check_parameter_validation fn).filter
          (fun v => v.rule_name = "missing-error-handling".data) = [] :=
        filter_ruleName_nil (fun v hv => by
          rw [ruleName_mem_paramval fn v hv]; decide)
      rw [SorobanAnalyzer.analyze_function]
      rw [List.filter_append, List.filter_append, hexp, hpar,
        filter_ruleName_self (ruleName_mem_retval fn)]
      simp
    have hun : (SorobanAnalyzer.check_unbounded_loops imp c.source).filter
        (fun v => v.rule_name = "missing-error-handling".data) = [] :=
      filter_ruleName_nil (fun v hv => by
        rw [ruleName_mem_unbounded imp c.source v hv]; decide)
    have hst : (SorobanAnalyzer.check_storage_patterns imp c.source).filter
        (fun v => v.rule_name = "missing-error-handling".data) = [] :=
      filter_ruleName_nil (fun v hv => by
        rw [ruleName_mem_storage imp c.source v hv]; decide)
    rw [SorobanAnalyzer.analyze_implementation]
    rw [List.filter_append, List.filter_append, hun, hst]
    rw [List.filter_flatMap]
    simp only [hfn]
    simp
  have h3 : (SorobanAnalyzer.analyze_contract_structure c).filter
      (fun v => v.rule_name = "missing-error-handling".data) = [] := by
    apply filter_ruleName_nil
    intro v hv
    rcases ruleName_mem_structure c v hv with h | h <;> rw [h] <;> decide
  rw [h3]
  simp only [h1, h2]
  simp

/-- C8 (amended): in the full pipeline, a violation with ruleId
`missing-error-handling` is emitted for a function exactly when its name
contains `transfer`, `mint` or `burn` — `set` is **not** a trigger — and
its return type is absent or does not contain `Result`; the separate
rule registered as `soroban-missing-error-handling` additionally
triggers on `set` under the same return-type condition. -/
theorem missing_error_handling_spec
    (rulesIter : List (SorobanRuleId × Bool)) (c : SorobanContract) :
    (SorobanRuleEngine.applyRules rulesIter c).filter
        (fun v => v.rule_name = "missing-error-handling".data) =
      c.implementations.flatMap (fun imp =>
        (imp.functions.filter (fun f =>
            (RustStr.containsStr f.name "transfer".data ||
             RustStr.containsStr f.name "mint".data ||
             RustStr.containsStr f.name "burn".data) &&
            (match f.return_type with
             | none => true
             | some rt => ! RustStr.containsStr rt "Result".data))).map
          SorobanAnalyzer.returnValuesViolation) ∧
    sorobanRuleApply SorobanRuleId.missingErrorHandling c =
      c.implementations.flatMap (fun imp =>
        (imp.functions.filter (fun f =>
            (RustStr.containsStr f.name "transfer".data ||
             RustStr.containsStr f.name "mint".data ||
             RustStr.containsStr f.name "burn".data ||
             RustStr.containsStr f.name "set".data) &&
            (match f.return_type with
             | none => true
             | some rt => ! RustStr.containsStr rt "Result".data))).map
          SorobanRules.errorHandlingRuleViolation) := by
  constructor
  · rw [SorobanRuleEngine.applyRules, List.filter_append,
      filter_analyze_errhandling,
      filter_rulesPhase_nil rulesIter c _
        (fun rid => (sorobanRuleIdStr_ne rid).2.2)]
    simp only [SorobanAnalyzer.check_return_values, flatMap_ite]
    simp
  · rw [sorobanRuleApply, SorobanRules.missingErrorHandlingApply]
    simp only [filterMap_ite]
    simp

/-! ## C3 — rule order and determinism of the engine -/

/-- C3 (counterexample): the transposed rule list is a permutation of the
registration order — an order a `HashMap` iteration may produce — and on
the empty contract the engine's output differs from the
registration-order output, so `analyze` does not concatenate rule results
in registration order. -/
theorem rule_order_counterexample :
    sorobanSwappedRules.Perm sorobanDefaultRules ∧
    SorobanRuleEngine.applyRules sorobanSwappedRules emptyContract ≠
      SorobanRuleEngine.applyRules sorobanDefaultRules emptyContract := by
  refine ⟨by decide, by decide⟩

/-- C3 (amended): `analyze` calls `apply` on every enabled rule and
concatenates the results after the analyzer's violations in the engine's
`HashMap` iteration order, which is an unspecified permutation of the
registered rules; consequently the output list is stable under the
analyzer prefix and, across any two iteration orders that are
permutations of each other, the outputs are permutations of each other
(identical content analyzed twice through the same engine instance —
hence the same iteration order — yields the identical list, the function
being deterministic in the order and the IR). -/
theorem analyze_rules_permutation
    (r1 r2 : List (SorobanRuleId × Bool)) (c : SorobanContract)
    (h : r1.Perm r2) :
    (SorobanRuleEngine.applyRules r1 c).Perm
      (SorobanRuleEngine.applyRules r2 c) := by
  rw [SorobanRuleEngine.applyRules, SorobanRuleEngine.applyRules]
  exact List.Perm.append_left _ (List.Perm.flatMap_right _ h)

/-- C3 (witness): the amended theorem at the transposed order and the
empty contract, the permutation hypothesis discharged by evaluation. -/
theorem analyze_rules_permutation_witness :
    (SorobanRuleEngine.applyRules sorobanSwappedRules emptyContract).Perm
      (SorobanRuleEngine.applyRules sorobanDefaultRules emptyContract) :=
  analyze_rules_permutation sorobanSwappedRules sorobanDefaultRules
    emptyContract (by decide)

/-! ## C5: the balanced-delimiter extraction primitive

Byte-index arithmetic lemmas, the scanning-loop characterisation, and the
`matchCloseRef` reference correspondence used to settle C5. -/

theorem utf8Len_cons (c : Char) (s : Str) :
    utf8Len (c :: s) = c.utf8Size + utf8Len s := by
  simp [utf8Len]

theorem utf8Len_append (s t : Str) :
    utf8Len (s ++ t) = utf8Len s + utf8Len t := by
  simp [utf8Len]

theorem length_le_utf8Len (s : Str) : s.length ≤ utf8Len s := by
  induction s with
  | nil => simp [utf8Len]
  | cons c rest ih =>
      have h1 := Char.utf8Size_pos c
      rw [utf8Len_cons, List.length_cons]
      omega

theorem utf8Len_eq_length (s : Str) (hA : ∀ ch ∈ s, ch.utf8Size = 1) :
    utf8Len s = s.length := by
  induction s with
  | nil => rfl
  | cons c rest ih =>
      rw [utf8Len_cons, hA c (by simp), List.length_cons,
        ih (fun ch h => hA ch (by simp [h]))]
      omega

theorem byteFindChar_append_not_mem (o : Char) (pre rest : Str) (h : o ∉ pre) :
    byteFindChar o (pre ++ o :: rest) = some (utf8Len pre) := by
  induction pre with
  | nil => simp [byteFindChar, utf8Len]
  | cons x xs ih =>
      have hx : ¬ (x = o) := fun he => h (by simp [he])
      have hxs : o ∉ xs := fun hm => h (by simp [hm])
      rw [List.cons_append, byteFindChar, if_neg hx, ih hxs, utf8Len_cons]
      simp [Nat.add_comm]

theorem byteFindChar_none (o : Char) (s : Str) (h : o ∉ s) :
    byteFindChar o s = none := by
  induction s with
  | nil => rfl
  | cons x xs ih =>
      have hx : ¬ (x = o) := fun he => h (by simp [he])
      have hxs : o ∉ xs := fun hm => h (by simp [hm])
      rw [byteFindChar, if_neg hx, ih hxs]
      rfl

theorem byteFindChar_some_decomp (o : Char) (s : Str) (n : Nat)
    (h : byteFindChar o s = some n) :
    ∃ pre rest, s = pre ++ o :: rest ∧ o ∉ pre ∧ n = utf8Len pre := by
  induction s generalizing n with
  | nil => simp [byteFindChar] at h
  | cons x xs ih =>
      by_cases hx : x = o
      · refine ⟨[], xs, by simp [hx], by simp, ?_⟩
        rw [byteFindChar, if_pos hx] at h
        simp [utf8Len] at h ⊢
        omega
      · rw [byteFindChar, if_neg hx] at h
        obtain ⟨m, hm, hn⟩ := Option.map_eq_some.mp h
        obtain ⟨pre, rest, hs, hpre, hmn⟩ := ih m hm
        refine ⟨x :: pre, rest, by simp [hs], ?_, ?_⟩
        · intro hmem
          rcases List.mem_cons.mp hmem with h1 | h1
          · exact hx h1.symm
          · exact hpre h1
        · rw [utf8Len_cons, ← hn, hmn]
          omega

theorem takeBytes_append (xs ys : Str) :
    takeBytes (xs ++ ys) (utf8Len xs) = .ok xs := by
  induction xs with
  | nil => cases ys <;> rfl
  | cons x xs ih =>
      have h1 := Char.utf8Size_pos x
      obtain ⟨m, hm⟩ : ∃ m, utf8Len (x :: xs) = m + 1 := by
        rw [utf8Len_cons]; exact ⟨x.utf8Size + utf8Len xs - 1, by omega⟩
      rw [utf8Len_cons] at hm
      rw [utf8Len_cons, List.cons_append]
      rw [show x.utf8Size + utf8Len xs = m + 1 from hm]
      rw [takeBytes, if_pos (by omega : x.utf8Size ≤ m + 1)]
      rw [show m + 1 - x.utf8Size = utf8Len xs by omega, ih]
      rfl

theorem dropBytes_append (xs ys : Str) :
    dropBytes (xs ++ ys) (utf8Len xs) = .ok ys := by
  induction xs with
  | nil => cases ys <;> rfl
  | cons x xs ih =>
      have h1 := Char.utf8Size_pos x
      obtain ⟨m, hm⟩ : ∃ m, x.utf8Size + utf8Len xs = m + 1 :=
        ⟨x.utf8Size + utf8Len xs - 1, by omega⟩
      rw [utf8Len_cons, List.cons_append, hm]
      rw [dropBytes, if_pos (by omega : x.utf8Size ≤ m + 1)]
      rw [show m + 1 - x.utf8Size = utf8Len xs by omega, ih]

theorem sliceBytes_decomp (pre mid suffix : Str) :
    sliceBytes (pre ++ mid ++ suffix) (utf8Len pre) (utf8Len pre + utf8Len mid) =
      .ok mid := by
  unfold sliceBytes
  rw [if_pos (Nat.le_add_right _ _)]
  have h1 : takeBytes (pre ++ mid ++ suffix) (utf8Len pre + utf8Len mid) =
      .ok (pre ++ mid) := by
    have h2 := takeBytes_append (pre ++ mid) suffix
    rwa [utf8Len_append] at h2
  rw [h1]
  exact dropBytes_append pre mid

theorem runDepth_nil (o c : Char) : runDepth o c [] = 0 := rfl

theorem runDepth_cons (o c x : Char) (l : Str) :
    runDepth o c (x :: l) = delimDelta o c x + runDepth o c l := by
  simp [runDepth]

theorem drop_cons_get (text : Str) (i : Nat) (x : Char) (r : Str)
    (h : text.drop i = x :: r) :
    text.get? i = some x ∧ text.drop (i + 1) = r ∧ i < text.length := by
  have hlen : i < text.length := by
    by_contra hc
    rw [List.drop_eq_nil_of_le (by omega)] at h
    exact List.noConfusion h
  have hget : text.get? i = some x := by
    have h0 := List.get?_drop text i 0
    rw [h, Nat.add_zero] at h0
    exact h0.symm
  have hdrop : text.drop (i + 1) = r := by
    have h1 : text.drop (i + 1) = (text.drop i).drop 1 := by
      rw [List.drop_drop, Nat.add_comm]
    rw [h1, h]
    rfl
  exact ⟨hget, hdrop, hlen⟩

theorem count_step (o c x : Char) (k : Nat)
    (hpos : (0 : Int) < (k : Int) + delimDelta o c x) :
    ((if x = o then k + 1 else if x = c then k - 1 else k : Nat) : Int) =
      (k : Int) + delimDelta o c x := by
  unfold delimDelta at hpos ⊢
  by_cases hxo : x = o
  · rw [if_pos hxo, if_pos hxo]
    push_cast
    ring
  · by_cases hxc : x = c
    · rw [if_neg hxo, if_pos hxc] at hpos
      rw [if_neg hxo, if_pos hxc, if_neg hxo, if_pos hxc]
      omega
    · rw [if_neg hxo, if_neg hxc, if_neg hxo, if_neg hxc]
      omega

theorem extractBetweenGo_step (o c : Char) (text : Str) (f i k : Nat) (x : Char)
    (hi : i < utf8Len text) (hk : 0 < k) (hget : text.get? i = some x) :
    extractBetweenGo o c text (f + 1) i k =
      if 0 < (if x = o then k + 1 else if x = c then k - 1 else k) then
        extractBetweenGo o c text f (i + 1)
          (if x = o then k + 1 else if x = c then k - 1 else k)
      else .ok (i, if x = o then k + 1 else if x = c then k - 1 else k) := by
  rw [extractBetweenGo, if_pos ⟨hi, hk⟩, hget]

theorem extractBetweenGo_closes (o c : Char) (hoc : o ≠ c) (text : Str)
    (hA : ∀ ch ∈ text, ch.utf8Size = 1) :
    ∀ (mid : Str) (suffix : Str) (i k fuel : Nat),
    text.drop i = mid ++ c :: suffix →
    0 < k →
    (∀ t ∈ mid.inits, (0 : Int) < (k : Int) + runDepth o c t) →
    (k : Int) + runDepth o c mid = 1 →
    mid.length < fuel →
    extractBetweenGo o c text fuel i k = .ok (i + mid.length, 0) := by
  intro mid
  induction mid with
  | nil =>
      intro suffix i k fuel hdrop hk hpre hend hfuel
      obtain ⟨hget, hdrop1, hlen⟩ := drop_cons_get text i c suffix hdrop
      obtain ⟨f, rfl⟩ : ∃ f, fuel = f + 1 := ⟨fuel - 1, by omega⟩
      have hco : ¬ (c = o) := fun he => hoc he.symm
      rw [runDepth_nil] at hend
      have hk1 : k = 1 := by omega
      subst hk1
      rw [extractBetweenGo_step o c text f i 1 c
        (by rw [utf8Len_eq_length text hA]; exact hlen) Nat.one_pos hget]
      rw [if_neg hco, if_pos rfl]
      norm_num
  | cons x mid ih =>
      intro suffix i k fuel hdrop hk hpre hend hfuel
      rw [List.cons_append] at hdrop
      obtain ⟨hget, hdrop1, hlen⟩ := drop_cons_get text i x (mid ++ c :: suffix) hdrop
      obtain ⟨f, rfl⟩ : ∃ f, fuel = f + 1 := ⟨fuel - 1, by omega⟩
      have hposx : (0 : Int) < (k : Int) + delimDelta o c x := by
        have h1 := hpre [x] (by rw [List.inits_cons]; simp)
        rwa [runDepth_cons, runDepth_nil, Int.add_zero] at h1
      have hcast := count_step o c x k hposx
      set k' : Nat := if x = o then k + 1 else if x = c then k - 1 else k with hkd
      have hk' : 0 < k' := by
        have h2 : (0 : Int) < (k' : Int) := by rw [hcast]; exact hposx
        exact_mod_cast h2
      rw [extractBetweenGo_step o c text f i k x
        (by rw [utf8Len_eq_length text hA]; exact hlen) hk hget]
      rw [← hkd, if_pos hk']
      have hres := ih suffix (i + 1) k' f hdrop1 hk'
        (fun t ht => by
          have h2 := hpre (x :: t) (by
            rw [List.inits_cons]
            simp only [List.mem_cons, List.mem_map]
            exact Or.inr ⟨t, ht, rfl⟩)
          rwa [runDepth_cons, ← Int.add_assoc, ← hcast] at h2)
        (by rw [runDepth_cons] at hend; rw [hcast]; omega)
        (by simp at hfuel; omega)
      rw [hres]
      have h3 : i + 1 + mid.length = i + (x :: mid).length := by simp; omega
      rw [h3]

theorem extractBetweenGo_unclosed (o c : Char) (text : Str)
    (hA : ∀ ch ∈ text, ch.utf8Size = 1) :
    ∀ (tail : Str) (i k fuel : Nat),
    text.drop i = tail →
    0 < k →
    (∀ t ∈ tail.inits, (0 : Int) < (k : Int) + runDepth o c t) →
    ∃ e kf, extractBetweenGo o c text fuel i k = .ok (e, kf) ∧ 0 < kf := by
  intro tail
  induction tail with
  | nil =>
      intro i k fuel hdrop hk hpre
      cases fuel with
      | zero => exact ⟨i, k, rfl, hk⟩
      | succ f =>
          have hlen : text.length ≤ i := by
            rw [List.drop_eq_nil_iff_le] at hdrop
            exact hdrop
          rw [extractBetweenGo, if_neg (by
            rw [utf8Len_eq_length text hA]
            omega)]
          exact ⟨i, k, rfl, hk⟩
  | cons x rest ih =>
      intro i k fuel hdrop hk hpre
      obtain ⟨hget, hdrop1, hlen⟩ := drop_cons_get text i x rest hdrop
      cases fuel with
      | zero => exact ⟨i, k, rfl, hk⟩
      | succ f =>
          have hposx : (0 : Int) < (k : Int) + delimDelta o c x := by
            have h1 := hpre [x] (by rw [List.inits_cons]; simp)
            rwa [runDepth_cons, runDepth_nil, Int.add_zero] at h1
          have hcast := count_step o c x k hposx
          set k' : Nat := if x = o then k + 1 else if x = c then k - 1 else k with hkd
          have hk' : 0 < k' := by
            have h2 : (0 : Int) < (k' : Int) := by rw [hcast]; exact hposx
            exact_mod_cast h2
          rw [extractBetweenGo_step o c text f i k x
            (by rw [utf8Len_eq_length text hA]; exact hlen) hk hget]
          rw [← hkd, if_pos hk']
          exact ih (i + 1) k' f hdrop1 hk'
            (fun t ht => by
              have h2 := hpre (x :: t) (by
                rw [List.inits_cons]
                simp only [List.mem_cons, List.mem_map]
                exact Or.inr ⟨t, ht, rfl⟩)
              rwa [runDepth_cons, ← Int.add_assoc, ← hcast] at h2)

theorem matchCloseRef_none_pos (o c : Char) :
    ∀ (tail : Str) (k : Nat), 0 < k → matchCloseRef o c tail k = none →
    ∀ t ∈ tail.inits, (0 : Int) < (k : Int) + runDepth o c t := by
  intro tail
  induction tail with
  | nil =>
      intro k hk _ t ht
      simp only [List.inits, List.mem_singleton] at ht
      subst ht
      rw [runDepth_nil]
      omega
  | cons x rest ih =>
      intro k hk hnone t ht
      rw [matchCloseRef] at hnone
      set k' : Nat := if x = o then k + 1 else if x = c then k - 1 else k with hkd
      by_cases hz : k' = 0
      · rw [if_pos hz] at hnone
        exact Option.noConfusion hnone
      · rw [if_neg hz] at hnone
        have hrec : matchCloseRef o c rest k' = none := by
          cases hmc : matchCloseRef o c rest k' with
          | none => rfl
          | some y => rw [hmc] at hnone; exact Option.noConfusion hnone
        have hk' : 0 < k' := Nat.pos_of_ne_zero hz
        have hcast : (k' : Int) = (k : Int) + delimDelta o c x := by
          rw [hkd]
          unfold delimDelta
          by_cases hxo : x = o
          · rw [if_pos hxo, if_pos hxo]
            push_cast
            ring
          · by_cases hxc : x = c
            · have hk2 : 2 ≤ k := by
                by_contra h2
                apply hz
                rw [hkd, if_neg hxo, if_pos hxc]
                omega
              rw [if_neg hxo, if_pos hxc, if_neg hxo, if_pos hxc]
              omega
            · rw [if_neg hxo, if_neg hxc, if_neg hxo, if_neg hxc]
              omega
        rw [List.inits_cons] at ht
        simp only [List.mem_cons, List.mem_map] at ht
        rcases ht with h1 | ⟨t0, ht0, rfl⟩
        · subst h1
          rw [runDepth_nil]
          omega
        · have h2 := ih k' hk' hrec t0 ht0
          rw [runDepth_cons, ← Int.add_assoc, ← hcast]
          exact h2

theorem count_step_of_ne (o c x : Char) (k : Nat) (hk : 0 < k)
    (hz : ¬ (if x = o then k + 1 else if x = c then k - 1 else k) = 0) :
    ((if x = o then k + 1 else if x = c then k - 1 else k : Nat) : Int) =
      (k : Int) + delimDelta o c x := by
  unfold delimDelta
  by_cases hxo : x = o
  · rw [if_pos hxo, if_pos hxo]
    push_cast
    ring
  · by_cases hxc : x = c
    · have hk2 : 2 ≤ k := by
        by_contra h2
        apply hz
        rw [if_neg hxo, if_pos hxc]
        omega
      rw [if_neg hxo, if_pos hxc, if_neg hxo, if_pos hxc]
      omega
    · rw [if_neg hxo, if_neg hxc, if_neg hxo, if_neg hxc]
      omega

theorem matchCloseRef_some_decomp (o c : Char) :
    ∀ (tail : Str) (k : Nat) (mid suffix : Str), 0 < k →
    matchCloseRef o c tail k = some (mid, suffix) →
    tail = mid ++ c :: suffix ∧
    (∀ t ∈ mid.inits, (0 : Int) < (k : Int) + runDepth o c t) ∧
    (k : Int) + runDepth o c mid = 1 := by
  intro tail
  induction tail with
  | nil =>
      intro k mid suffix hk h
      rw [matchCloseRef] at h
      exact Option.noConfusion h
  | cons x rest ih =>
      intro k mid suffix hk h
      rw [matchCloseRef] at h
      set k' : Nat := if x = o then k + 1 else if x = c then k - 1 else k with hkd
      by_cases hz : k' = 0
      · rw [if_pos hz] at h
        obtain ⟨h1, h2⟩ : ([] : Str) = mid ∧ rest = suffix := by
          have h3 := Option.some.inj h
          exact ⟨congrArg Prod.fst h3, congrArg Prod.snd h3⟩
        subst h1
        subst h2
        have hxck : x = c ∧ k = 1 := by
          by_cases hxo : x = o
          · exfalso
            rw [hkd, if_pos hxo] at hz
            omega
          · by_cases hxc : x = c
            · refine ⟨hxc, ?_⟩
              rw [hkd, if_neg hxo, if_pos hxc] at hz
              omega
            · exfalso
              rw [hkd, if_neg hxo, if_neg hxc] at hz
              omega
        refine ⟨by rw [hxck.1]; rfl, ?_, ?_⟩
        · intro t ht
          simp only [List.inits, List.mem_singleton] at ht
          subst ht
          rw [runDepth_nil]
          omega
        · rw [runDepth_nil, hxck.2]
          norm_num
      · rw [if_neg hz] at h
        have hk' : 0 < k' := Nat.pos_of_ne_zero hz
        have hcast : (k' : Int) = (k : Int) + delimDelta o c x := by
          rw [hkd]
          exact count_step_of_ne o c x k hk (hkd ▸ hz)
        obtain ⟨y, hy, hfy⟩ := Option.map_eq_some.mp h
        obtain ⟨hmid, hsuf⟩ : x :: y.1 = mid ∧ y.2 = suffix := by
          exact ⟨congrArg Prod.fst hfy, congrArg Prod.snd hfy⟩
        subst hmid
        subst hsuf
        obtain ⟨hres, hpre0, hend0⟩ := ih k' y.1 y.2 hk' hy
        refine ⟨by rw [hres]; rfl, ?_, ?_⟩
        · intro t ht
          rw [List.inits_cons] at ht
          simp only [List.mem_cons, List.mem_map] at ht
          rcases ht with h1 | ⟨t0, ht0, rfl⟩
          · subst h1
            rw [runDepth_nil]
            omega
          · have h2 := hpre0 t0 ht0
            rw [runDepth_cons, ← Int.add_assoc, ← hcast]
            exact h2
        · rw [runDepth_cons, ← Int.add_assoc, ← hcast]
          exact hend0

theorem extractBetween_find_some (o c : Char) (text : Str) (start : Nat)
    (hfind : byteFindChar o text = some start) :
    extractBetween o c text =
      match extractBetweenGo o c text (utf8Len text) (start + 1) 1 with
      | .error e => .error e
      | .ok (endIdx, count) =>
          if count = 0 then (sliceBytes text (start + 1) endIdx).map some
          else .ok none := by
  unfold extractBetween
  rw [hfind]

theorem extractBetween_wellFormed (o c : Char) (hoc : o ≠ c)
    (pre mid suffix : Str) (hpre : o ∉ pre)
    (hA : ∀ ch ∈ pre ++ o :: (mid ++ c :: suffix), ch.utf8Size = 1)
    (hbal : ∀ t ∈ mid.inits, (0 : Int) < 1 + runDepth o c t)
    (hclose : runDepth o c mid = 0) :
    extractBetween o c (pre ++ o :: (mid ++ c :: suffix)) = .ok (some mid) := by
  have hpreA : ∀ ch ∈ pre, ch.utf8Size = 1 :=
    fun ch h => hA ch (List.mem_append_left _ h)
  have hoA : o.utf8Size = 1 := hA o (by simp)
  have hmidA : ∀ ch ∈ mid, ch.utf8Size = 1 :=
    fun ch h => hA ch (by simp [h])
  have hpl : utf8Len pre = pre.length := utf8Len_eq_length pre hpreA
  have hml : utf8Len mid = mid.length := utf8Len_eq_length mid hmidA
  rw [extractBetween_find_some o c _ _ (byteFindChar_append_not_mem o pre _ hpre)]
  have hdrop : (pre ++ o :: (mid ++ c :: suffix)).drop (utf8Len pre + 1) =
      mid ++ c :: suffix := by
    rw [hpl]
    have h1 : pre ++ o :: (mid ++ c :: suffix) =
        (pre ++ [o]) ++ (mid ++ c :: suffix) := by simp
    rw [h1, show pre.length + 1 = (pre ++ [o]).length by simp,
      List.drop_left]
  have hfuel : mid.length < utf8Len (pre ++ o :: (mid ++ c :: suffix)) := by
    have h2 := length_le_utf8Len (pre ++ o :: (mid ++ c :: suffix))
    simp only [List.length_append, List.length_cons] at h2
    omega
  rw [extractBetweenGo_closes o c hoc _ hA mid suffix (utf8Len pre + 1) 1
    (utf8Len (pre ++ o :: (mid ++ c :: suffix))) hdrop Nat.one_pos
    (by intro t ht; simpa using hbal t ht)
    (by rw [hclose]; norm_num) hfuel]
  show (if 0 = 0 then
      (sliceBytes (pre ++ o :: (mid ++ c :: suffix)) (utf8Len pre + 1)
        (utf8Len pre + 1 + mid.length)).map some
    else .ok none) = .ok (some mid)
  rw [if_pos rfl]
  have hslice : sliceBytes (pre ++ o :: (mid ++ c :: suffix)) (utf8Len pre + 1)
      (utf8Len pre + 1 + mid.length) = .ok mid := by
    have h3 := sliceBytes_decomp (pre ++ [o]) mid (c :: suffix)
    rw [utf8Len_append, hml] at h3
    have h4 : utf8Len [o] = 1 := by
      simp [utf8Len, hoA]
    rw [h4] at h3
    have h5 : (pre ++ [o]) ++ mid ++ (c :: suffix) =
        pre ++ o :: (mid ++ c :: suffix) := by simp
    rw [h5] at h3
    exact h3
  rw [hslice]
  rfl

theorem extractBetween_unclosed (o c : Char) (pre tail : Str)
    (hpre : o ∉ pre)
    (hA : ∀ ch ∈ pre ++ o :: tail, ch.utf8Size = 1)
    (hnone : matchCloseRef o c tail 1 = none) :
    extractBetween o c (pre ++ o :: tail) = .ok none := by
  have hpreA : ∀ ch ∈ pre, ch.utf8Size = 1 :=
    fun ch h => hA ch (List.mem_append_left _ h)
  have hpl : utf8Len pre = pre.length := utf8Len_eq_length pre hpreA
  rw [extractBetween_find_some o c _ _ (byteFindChar_append_not_mem o pre _ hpre)]
  have hdrop : (pre ++ o :: tail).drop (utf8Len pre + 1) = tail := by
    rw [hpl]
    have h1 : pre ++ o :: tail = (pre ++ [o]) ++ tail := by simp
    rw [h1, show pre.length + 1 = (pre ++ [o]).length by simp, List.drop_left]
  obtain ⟨e, kf, hgo, hkf⟩ := extractBetweenGo_unclosed o c _ hA tail
    (utf8Len pre + 1) 1 (utf8Len (pre ++ o :: tail)) hdrop Nat.one_pos
    (matchCloseRef_none_pos o c tail 1 Nat.one_pos hnone)
  rw [hgo]
  show (if kf = 0 then
      (sliceBytes (pre ++ o :: tail) (utf8Len pre + 1) e).map some
    else .ok none) = .ok none
  rw [if_neg (by omega)]

theorem extractBetween_not_found (o c : Char) (text : Str) (h : o ∉ text) :
    extractBetween o c text = .ok none := by
  unfold extractBetween
  rw [byteFindChar_none o text h]

/-- Counterexample to C5: on the input `"\x7bé\x7d"` (well-formed nested
delimiters around a two-byte character) `extract_between_braces` panics,
because the scan mixes byte and character indices and the final slice cuts
the two-byte character in half.  The claim "never panics or crashes, for any
input string" is false. -/
theorem extract_between_panics_on_multibyte :
    SorobanParser.extract_between_braces ('{' :: 'é' :: '}' :: []) =
      .error RustPanic.panic := by decide

/-- C5 (amended): on ASCII input the balanced-delimiter extraction returns
exactly the span strictly between the first opening delimiter and its
matching closing delimiter when one exists, `.ok none` when the delimiters
never rebalance, and `.ok none` when there is no opening delimiter; it can
panic on non-ASCII input. -/
theorem extract_between_balanced_spec :
    (∀ (o c : Char) (pre mid suffix : Str), o ≠ c → o ∉ pre →
      (∀ ch ∈ pre ++ o :: (mid ++ c :: suffix), ch.utf8Size = 1) →
      (∀ t ∈ mid.inits, (0 : Int) < 1 + runDepth o c t) →
      runDepth o c mid = 0 →
      extractBetween o c (pre ++ o :: (mid ++ c :: suffix)) = .ok (some mid)) ∧
    (∀ (o c : Char) (pre tail : Str), o ∉ pre →
      (∀ ch ∈ pre ++ o :: tail, ch.utf8Size = 1) →
      matchCloseRef o c tail 1 = none →
      extractBetween o c (pre ++ o :: tail) = .ok none) ∧
    (∀ (o c : Char) (text : Str), o ∉ text →
      extractBetween o c text = .ok none) :=
  ⟨fun o c pre mid suffix hoc hpre hA hbal hclose =>
      extractBetween_wellFormed o c hoc pre mid suffix hpre hA hbal hclose,
    fun o c pre tail hpre hA hnone =>
      extractBetween_unclosed o c pre tail hpre hA hnone,
    fun o c text h => extractBetween_not_found o c text h⟩

/-- Witness for the amended C5: both `extract_between_braces` and
`extract_between_parentheses` evaluated through the theorem at concrete
ASCII inputs for the three cases. -/
theorem extract_between_balanced_spec_witness :
    SorobanParser.extract_between_braces
        ('x' :: '{' :: 'a' :: '(' :: ')' :: 'b' :: '}' :: 'y' :: []) =
      .ok (some ('a' :: '(' :: ')' :: 'b' :: [])) ∧
    SorobanParser.extract_between_parentheses
        ('x' :: '(' :: '(' :: 'y' :: []) = .ok none ∧
    SorobanParser.extract_between_braces ('x' :: 'y' :: []) = .ok none := by
  refine ⟨?_, ?_, ?_⟩
  · exact extract_between_balanced_spec.1 '{' '}' ('x' :: [])
      ('a' :: '(' :: ')' :: 'b' :: []) ('y' :: []) (by decide) (by decide)
      (by decide) (by decide) (by decide)
  · exact extract_between_balanced_spec.2.1 '(' ')' ('x' :: [])
      ('(' :: 'y' :: []) (by decide) (by decide) (by decide)
  · exact extract_between_balanced_spec.2.2 '{' '}' ('x' :: 'y' :: [])
      (by decide)

/-! ## C4 — whole-file abort on a malformed unit -/

/-- Counterexample to C4: in `mixedLines` the first unit is a malformed
`#[contracttype]` struct (field fragment without a colon) and the second is
a well-formed `#[contractimpl]` block.  The types pass fails, and although
the implementations pass on its own recovers the later block and its
function, `parse_contract` on the same file propagates the types-pass
error with `?`, so the later functions never reach the rules — recovery
does not continue for the remainder of the file. -/
theorem malformed_type_aborts_whole_file :
    SorobanParser.parse_contract_types mixedLines =
      .error (.parseErr (.ParseError "Invalid field format: badfield".data)) ∧
    (SorobanParser.parse_implementations mixedLines).map
        (List.map (fun im => im.functions.map (fun f => f.name))) =
      .ok [["transfer_coins".data]] ∧
    SorobanParser.parse_contract mixedSource "contract.rs".data =
      .error (.parseErr (.ParseError "Invalid field format: badfield".data)) :=
  ⟨by decide, by decide, by decide⟩

/-- C4 (amended): a malformed individual unit aborts recovery for the whole
file, not just for that unit: whenever the name extraction succeeds but the
types pass fails, `parse_contract` propagates that error, and so does the
engine-level analysis — no function from any later block of the file
reaches the rules. -/
theorem parse_error_aborts_whole_file
    (rulesIter : List (SorobanRuleId × Bool)) (source file_path name : Str)
    (e : RunError)
    (hname : SorobanParser.extract_contract_name source = .ok name)
    (htypes : SorobanParser.parse_contract_types (RustStr.rustLines source) =
      .error e) :
    SorobanParser.parse_contract source file_path = .error e ∧
    SorobanRuleEngine.analyze rulesIter source file_path = .error e := by
  have h1 : SorobanParser.parse_contract source file_path = .error e := by
    unfold SorobanParser.parse_contract
    simp only [hname, htypes]
  refine ⟨h1, ?_⟩
  unfold SorobanRuleEngine.analyze
  rw [h1]
  rfl

/-- Witness for the amended C4 at the concrete mixed file. -/
theorem parse_error_aborts_whole_file_witness :
    SorobanParser.extract_contract_name mixedSource = .ok "Bad".data ∧
    SorobanRuleEngine.analyze sorobanDefaultRules mixedSource
        "contract.rs".data =
      .error (.parseErr (.ParseError "Invalid field format: badfield".data)) :=
  ⟨by decide,
    (parse_error_aborts_whole_file sorobanDefaultRules mixedSource
      "contract.rs".data "Bad".data
      (.parseErr (.ParseError "Invalid field format: badfield".data))
      (by decide) (by decide)).2⟩
